import Mathlib

/-!
Verification development for the shader-formatter repository.

The Rust sources (src/formatter.rs, src/parser.rs, src/helpers.rs,
src/rules.rs, src/config.rs) are shallowly embedded below:

* strings are embedded as `List Char` (Rust iterates `content.chars()` and
  pushes/pops single `char`s on the output `String`);
* `usize` counters that only ever use `+ 1` and `saturating_sub` are `Nat`;
* the build is modelled as a non-Windows build, so `LINE_ENDING = "\n"` and
  the two `#[cfg(windows)]` blocks in formatter.rs are compiled out;
* fallible code returns `Except`, and a Rust `panic!`/`unwrap()` failure is a
  distinguished outcome of the pipeline embedding.

Definitions keep the source names up to case conventions; a few identifiers
are renamed (`...Pfx` instead of the source's `..._prefix` field names) purely
for Lean-side naming reasons, with comments pointing at the source lines.
-/

/-- The character `{` (written via its code point). -/
def lbrace : Char := Char.ofNat 123

/-- The character `}` (written via its code point). -/
def rbrace : Char := Char.ofNat 125

/-- rules.rs `IndentationRule`. -/
inductive IndentationRule where
  | Tab
  | TwoSpaces
  | FourSpaces
deriving DecidableEq, Repr

/-- rules.rs `NewLineAroundOpenBraceRule` (config.rs calls it `NewLineOnOpenBrace`). -/
inductive NewLineAroundOpenBraceRule where
  | Before
  | After
deriving DecidableEq, Repr

/-- rules.rs `Case`. -/
inductive Case where
  | Camel
  | Pascal
  | Snake
  | UpperSnake
deriving DecidableEq, Repr

/-- config.rs `Config` (the formatting-rule fields consumed by formatter.rs;
the `..._prefix` fields of the source are spelled `...Pfx` here). -/
structure Config where
  newLineAroundBraces : NewLineAroundOpenBraceRule
  indentation : IndentationRule
  maxEmptyLines : Nat
  spacesInBrackets : Bool
  variableCase : Option Case
  functionCase : Option Case
  structCase : Option Case
  boolPfx : Option String
  intPfx : Option String
  floatPfx : Option String
  globalVariablePfx : Option String
  forceLineEnding : Option String
  requireDocsOnFunctions : Bool
  requireDocsOnStructs : Bool
  requireDocsOnFields : Bool
  indentPreprocessor : Bool
  preprocessorIfCreatesNesting : Bool
deriving Repr

/-- config.rs `impl Default for Config`. -/
def defaultConfig : Config where
  newLineAroundBraces := .After
  indentation := .FourSpaces
  maxEmptyLines := 1
  spacesInBrackets := false
  variableCase := none
  functionCase := none
  structCase := none
  boolPfx := none
  intPfx := none
  floatPfx := none
  globalVariablePfx := none
  forceLineEnding := none
  requireDocsOnFunctions := false
  requireDocsOnStructs := false
  requireDocsOnFields := false
  indentPreprocessor := false
  preprocessorIfCreatesNesting := false

/-- formatter.rs line 14: marker prepended to errors that require manual code changes. -/
def CHANGES_REQUIRED_ERR_MSG : String := "changes required"

/-- formatter.rs line 17. -/
def NOFORMAT_BEGIN_COMMENT : List Char := (" NOFORMATBEGIN").data

/-- formatter.rs line 18. -/
def NOFORMAT_END_COMMENT : List Char := (" NOFORMATEND").data

/-- formatter.rs lines 20-23 (non-Windows build). -/
def LINE_ENDING : List Char := [ '\n']

/-- The whitespace set used by the various `remove everything until text`
loops in apply_simple_rules (they stop at anything other than these). -/
def isWsAll (c : Char) : Bool := c = ' ' || c = '\t' || c = '\n' || c = '\r'

/-- The space-or-tab test used by the `remove until beginning of line` loops. -/
def isSpaceTab (c : Char) : Bool := c = ' ' || c = '\t'

/-- Drop trailing characters satisfying `p` (the Rust idiom: count trailing
matching chars with `output.chars().rev()` and `pop()` that many times). -/
def dropTrailingWhile (p : Char → Bool) (l : List Char) : List Char :=
  (l.reverse.dropWhile p).reverse

/-- Pop `k` characters from the end of the output (`output.pop()` `k` times). -/
def popN (l : List Char) (k : Nat) : List Char := l.take (l.length - k)

/-- formatter.rs lines 141-145: the indentation unit selected by the config. -/
def indentText (cfg : Config) : List Char :=
  match cfg.indentation with
  | .Tab => [ '\t']
  | .TwoSpaces => [ ' ', ' ']
  | .FourSpaces => [ ' ', ' ', ' ', ' ']

/-- `indentation_text.repeat(nesting_count)`. -/
def indentRep (cfg : Config) (n : Nat) : List Char :=
  (List.replicate n (indentText cfg)).flatten

/-- The mutable local state of `Formatter::apply_simple_rules`
(formatter.rs lines 147-175), one field per local variable. -/
structure FmtSt where
  out : List Char
  nesting : Nat
  consecEmpty : Nat
  onNewLine : Bool
  ignoreUntilText : Bool
  stopIgnoringIfEol : Bool
  cCommentDepth : Nat
  inComment : Bool
  lastCommentLine : List Char
  preprocNestNext : Bool
  lineStartedPreproc : Bool
  lastNonSpaceBackslash : Bool
  prevLineBackslash : Bool
  l3a : Char
  l3b : Char
  l3c : Char
  inNoFormat : Bool
deriving Repr

/-- Initial state of apply_simple_rules (formatter.rs lines 147-175). -/
def initFmtSt : FmtSt where
  out := []
  nesting := 0
  consecEmpty := 0
  onNewLine := true
  ignoreUntilText := false
  stopIgnoringIfEol := false
  cCommentDepth := 0
  inComment := false
  lastCommentLine := []
  preprocNestNext := false
  lineStartedPreproc := false
  lastNonSpaceBackslash := false
  prevLineBackslash := false
  l3a := ' '
  l3b := ' '
  l3c := ' '
  inNoFormat := false

/-- Result of a stage of the per-character loop body: `stop` is a Rust
`continue`, `go` falls through to the rest of the loop body. -/
inductive StageRes where
  | stop (st : FmtSt)
  | go (st : FmtSt)

/-- formatter.rs lines 184-204: the `\n` branch of the loop body. -/
def newlineCharStep (cfg : Config) (st : FmtSt) : FmtSt :=
  let st := { st with onNewLine := true }
  let st :=
    if st.preprocNestNext then
      { st with nesting := st.nesting + 1, preprocNestNext := false }
    else st
  if (!st.ignoreUntilText || st.stopIgnoringIfEol)
      && st.consecEmpty ≤ cfg.maxEmptyLines then
    { st with
      ignoreUntilText := false
      stopIgnoringIfEol := false
      out := st.out ++ LINE_ENDING ++ indentRep cfg st.nesting
      consecEmpty := st.consecEmpty + 1 }
  else st

/-- formatter.rs lines 206-254: the `is_on_new_line` block (finding where the
text of the line starts, preprocessor line detection, `=`-continuation
indentation, cosmetic space before `*` in C comments). -/
def lineStartStep (cfg : Config) (st : FmtSt) (ch : Char) : StageRes :=
  if st.onNewLine then
    let st := { st with
      inComment := false
      prevLineBackslash := st.lastNonSpaceBackslash }
    if ch ≠ ' ' && ch ≠ '\t' then
      let st := { st with
        onNewLine := false
        ignoreUntilText := false
        stopIgnoringIfEol := false
        consecEmpty := 0 }
      let st :=
        if ch = '#' then
          let st := { st with lineStartedPreproc := true }
          if !cfg.indentPreprocessor then
            { st with out := dropTrailingWhile isSpaceTab st.out }
          else st
        else
          let st := { st with lineStartedPreproc := false }
          if ch = '=' then { st with out := st.out ++ indentText cfg } else st
      let st :=
        if st.cCommentDepth > 0 && ch = '*' then
          { st with out := st.out ++ [ ' '] }
        else st
      .go st
    else
      .stop st
  else
    .go st

/-- formatter.rs lines 256-263: the `ignore_until_text` block. -/
def ignoreStep (st : FmtSt) (ch : Char) : StageRes :=
  if st.ignoreUntilText then
    if ch ≠ ' ' && ch ≠ '\t' then
      .go { st with ignoreUntilText := false, stopIgnoringIfEol := false }
    else
      .stop st
  else
    .go st

/-- formatter.rs lines 284-290: `chars_to_remove` for the `#else`/`#elif`/
`#endif` dedent (the three already-copied chars plus the whitespace before
them). -/
def preprocDedentCount (out : List Char) : Nat :=
  3 + ((out.reverse.drop 3).takeWhile isSpaceTab).length

/-- formatter.rs lines 265-270: C-comment depth tracking (reading the
lookback buffer before it is updated). -/
def detectCComment (st : FmtSt) (ch : Char) : FmtSt :=
  if st.l3b = '/' && st.l3c = '*' && (ch = '*' || ch = '!') then
    { st with cCommentDepth := st.cCommentDepth + 1 }
  else if st.l3b = '*' && st.l3c = '/' then
    { st with cCommentDepth := st.cCommentDepth - 1 }
  else st

/-- formatter.rs lines 272-309: the optional preprocessor-nesting handling
(`#if` arming the next line, `#else`/`#elif`/`#endif` dedenting the current
line). -/
def detectPreproc (cfg : Config) (st : FmtSt) (ch : Char) : FmtSt :=
  if cfg.preprocessorIfCreatesNesting && cfg.indentPreprocessor
      && !st.inComment then
    if st.l3b = '#' && st.l3c = 'i' && ch = 'f' then
      { st with preprocNestNext := true }
    else if (st.l3a = '#' && st.l3b = 'e')
        && ((st.l3c = 'n' && ch = 'd') || (st.l3c = 'l' && ch = 'i')
            || (st.l3c = 'l' && ch = 's')) then
      let out := popN st.out (preprocDedentCount st.out)
      let nesting := st.nesting - 1
      let out := out ++ indentRep cfg nesting ++ [st.l3a, st.l3b, st.l3c]
      let st := { st with out := out, nesting := nesting }
      if ch = 'i' || ch = 's' then { st with preprocNestNext := true } else st
    else st
  else st

/-- formatter.rs lines 311-315: line-comment detection. -/
def detectLineComment (st : FmtSt) : FmtSt :=
  if st.l3b = '/' && st.l3c = '/' then
    { st with inComment := true, lastCommentLine := [] }
  else st

/-- formatter.rs lines 265-315: the three detection blocks in source order. -/
def detectStep (cfg : Config) (st : FmtSt) (ch : Char) : FmtSt :=
  detectLineComment (detectPreproc cfg (detectCComment st ch) ch)

/-- formatter.rs lines 317-320: shift the 3-character lookback buffer. -/
def updateLast3 (st : FmtSt) (ch : Char) : FmtSt :=
  { st with l3a := st.l3b, l3b := st.l3c, l3c := ch }

/-- formatter.rs lines 322-334: copy a character verbatim while inside a
comment, tracking the NOFORMAT begin/end sentinels. -/
def commentCopyStep (st : FmtSt) (ch : Char) : FmtSt :=
  let lcl := st.lastCommentLine ++ [ch]
  let st := { st with out := st.out ++ [ch], lastCommentLine := lcl }
  if lcl = NOFORMAT_BEGIN_COMMENT then { st with inNoFormat := true }
  else if lcl = NOFORMAT_END_COMMENT then { st with inNoFormat := false }
  else st

/-- formatter.rs lines 948-953: `is_text_starts_with_comment`. -/
def isTextStartsWithComment (text : List Char) : Bool :=
  (('/' :: '/' :: []) ).isPrefixOf (text.filter (fun c => c ≠ ' ' && c ≠ '\t'))

/-- State of the previous-line scan in the `{`/After branch
(formatter.rs lines 409-459). -/
structure BraceScanSt where
  out : List Char
  ctr : Nat
  skipped : Nat
  lastEmpty : Nat
  copy : Bool
  found : Bool

/-- formatter.rs lines 414-459: walk the previous line looking for a `//`
comment; on finding one, rewind the output to before the comment, insert
` { `, and copy the comment to the right of the brace.  `lineLen` is
`line_before_chars_count`; the peeked character is the head of `rest`.
(The `#[cfg(windows)]` adjustment is compiled out on this build.) -/
def braceScan (lineLen : Nat) (st : BraceScanSt) : List Char → BraceScanSt
  | [] => st
  | c :: rest =>
    let st := if st.copy then { st with out := st.out ++ [c] } else st
    let st :=
      if c = '/' && rest.head? = some '/' then
        let ctr := st.ctr + (lineLen - st.skipped) + (st.lastEmpty - 1)
        { st with
          found := true
          ctr := ctr
          out := (popN st.out ctr) ++ [ ' ', lbrace, ' ', '/']
          copy := true }
      else st
    let st :=
      if c = ' ' || c = '\t' then { st with lastEmpty := st.lastEmpty + 1 }
      else { st with lastEmpty := 0 }
    braceScan lineLen { st with skipped := st.skipped + 1 } rest

/-- formatter.rs lines 376-388 (inside the `After` arm): after removing the
backslash, remove everything until text again. -/
def braceMacroRewind (out0 : List Char) : List Char :=
  dropTrailingWhile isWsAll (popN out0 1)

/-- formatter.rs lines 364-388 (inside the `After` arm): when the previous
line ended in `\` and the text before the brace starts with `\`, drop that
backslash and the whitespace before it. -/
def braceOut1 (prevLineBackslash textStartsBackslash : Bool)
    (out0 : List Char) : List Char :=
  if prevLineBackslash && textStartsBackslash then braceMacroRewind out0
  else out0

/-- formatter.rs lines 390-471 (the `After` arm): place the brace, routing it
in front of a trailing `//` comment of the previous line when there is one.
`wsCount` is the still-live `chars_to_remove` counter. -/
def braceAfterOut2 (cfg : Config) (nesting wsCount : Nat) (out1 : List Char) :
    List Char :=
  let lineBefore := (out1.reverse.takeWhile (fun c => c ≠ '\n')).reverse
  if !(isTextStartsWithComment lineBefore) then
    -- lines 409-465: scan for a trailing comment.
    let scan := braceScan lineBefore.length
      { out := out1, ctr := wsCount, skipped := 0, lastEmpty := 0,
        copy := false, found := false } lineBefore
    if !scan.found then scan.out ++ [ ' ', lbrace] else scan.out
  else
    -- lines 466-471: previous line is pure comment, brace to a new line.
    out1 ++ LINE_ENDING ++ indentRep cfg nesting ++ [lbrace]

/-- formatter.rs lines 488-504 (the `Before` arm): keep a `\` attached when
inside a multi-line macro, then newline + indent + brace. -/
def braceBeforeOut2 (cfg : Config) (nesting : Nat) (prevLineBackslash : Bool)
    (out0 : List Char) : List Char :=
  let out1 :=
    if prevLineBackslash then
      match out0.reverse.head? with
      | some lastChar => if lastChar ≠ '\\' then out0 ++ [ '\\'] else out0
      | none => out0
    else out0
  let out2 := out1 ++ LINE_ENDING ++ indentRep cfg nesting ++ [lbrace]
  if prevLineBackslash then out2 ++ [ '\\'] else out2

/-- formatter.rs lines 345-516: the `{` branch. -/
def braceOpenStep (cfg : Config) (st : FmtSt) : FmtSt :=
  -- Remove everything until text (lines 346-359; popping `chars_to_remove`
  -- whitespace characters is dropping the trailing whitespace run).
  let revOut := st.out.reverse
  let wsCount := (revOut.takeWhile isWsAll).length
  let textStartsBackslash :=
    match revOut.drop wsCount with
    | c :: _ => c = '\\'
    | [] => false
  let out0 := dropTrailingWhile isWsAll st.out
  match cfg.newLineAroundBraces with
  | .After =>
    -- lines 364-388: multi-line macro handling.
    let out1 := braceOut1 st.prevLineBackslash textStartsBackslash out0
    let out2 := braceAfterOut2 cfg st.nesting wsCount out1
    let nesting := st.nesting + 1
    if !st.prevLineBackslash then
      { st with
        out := out2 ++ LINE_ENDING ++ indentRep cfg nesting
        nesting := nesting
        onNewLine := true
        consecEmpty := st.consecEmpty + 1
        ignoreUntilText := true }
    else
      { st with out := out2, nesting := nesting, ignoreUntilText := true }
  | .Before =>
    -- lines 485-512.
    let out2 := braceBeforeOut2 cfg st.nesting st.prevLineBackslash out0
    let nesting := st.nesting + 1
    { st with
      out := out2 ++ LINE_ENDING ++ indentRep cfg nesting
      nesting := nesting
      onNewLine := true
      consecEmpty := st.consecEmpty + 1
      ignoreUntilText := true }

/-- formatter.rs lines 517-549: the `}` branch. -/
def braceCloseStep (cfg : Config) (st : FmtSt) : FmtSt :=
  let nesting := st.nesting - 1
  let out0 := dropTrailingWhile isWsAll st.out
  let out1 :=
    if !st.lineStartedPreproc then out0 ++ LINE_ENDING ++ indentRep cfg nesting
    else out0 ++ [ ' ']
  { st with nesting := nesting, out := out1 ++ [rbrace] }

/-- formatter.rs lines 550-563: the `[` / `(` branch. -/
def bracketOpenStep (cfg : Config) (st : FmtSt) (ch : Char) : FmtSt :=
  let out := st.out ++ [ch] ++ (if cfg.spacesInBrackets then [ ' '] else [])
  { st with
    out := out
    ignoreUntilText := true
    stopIgnoringIfEol := true
    nesting := st.nesting + 1 }

/-- formatter.rs lines 564-589: the `]` / `)` branch. -/
def bracketCloseStep (cfg : Config) (st : FmtSt) (ch : Char) : FmtSt :=
  let out0 := dropTrailingWhile isWsAll st.out
  let nothingInBrackets :=
    match out0.reverse.head? with
    | none => false
    | some c => c = '<' || c = '[' || c = '('
  let out1 :=
    if cfg.spacesInBrackets && !nothingInBrackets then out0 ++ [ ' '] else out0
  { st with out := out1 ++ [ch], nesting := st.nesting - 1 }

/-- formatter.rs lines 590-607: the fallthrough branch (the inner `)` check is
dead code in the source — `)` is caught by the branch above — but is kept). -/
def defaultCharStep (st : FmtSt) (ch : Char) : FmtSt :=
  let out0 := if ch = ')' then dropTrailingWhile isSpaceTab st.out else st.out
  { st with out := out0 ++ [ch] }

/-- formatter.rs lines 341-607: the part of the loop body after the comment
checks — update the backslash tracker and dispatch on the character. -/
def dispatchStep (cfg : Config) (st : FmtSt) (ch : Char) : FmtSt :=
  let st :=
    if ch ≠ ' ' then { st with lastNonSpaceBackslash := (ch = '\\') } else st
  if ch = lbrace then braceOpenStep cfg st
  else if ch = rbrace then braceCloseStep cfg st
  else if ch = '[' || ch = '(' then bracketOpenStep cfg st ch
  else if ch = ']' || ch = ')' then bracketCloseStep cfg st ch
  else defaultCharStep st ch

/-- formatter.rs lines 177-607: the whole per-character loop body. -/
def step (cfg : Config) (st : FmtSt) (ch : Char) : FmtSt :=
  if ch = '\r' then st
  else if ch = '\n' then newlineCharStep cfg st
  else
    match lineStartStep cfg st ch with
    | .stop st => st
    | .go st =>
      match ignoreStep st ch with
      | .stop st => st
      | .go st =>
        let st := detectStep cfg st ch
        let st := updateLast3 st ch
        if st.inComment || st.cCommentDepth > 0 then commentCopyStep st ch
        else if st.inNoFormat then { st with out := st.out ++ [ch] }
        else dispatchStep cfg st ch

/-- formatter.rs lines 610-614: the unmatched-NOFORMAT error message. -/
def noformatErrMsg : String :=
  String.mk NOFORMAT_BEGIN_COMMENT ++ " was found but no matching"
    ++ String.mk NOFORMAT_END_COMMENT ++ " detected"

/-- formatter.rs lines 139-618: `Formatter::apply_simple_rules`. -/
def applySimpleRules (cfg : Config) (content : List Char) :
    Except String (List Char) :=
  let fin := content.foldl (step cfg) initFmtSt
  if fin.inNoFormat then .error noformatErrMsg else .ok fin.out

/-- parser.rs lines 5-17: `Type`. -/
inductive Ty where
  | Void
  | Bool
  | Integer
  | Float
  | Vector
  | Matrix
  | Array
  | Texture
  | Sampler
  | Custom
deriving DecidableEq, Repr

/-- parser.rs lines 19-32: `Token`.  `Token::Float(f64)` is embedded as the
matched source slice: `<f64 as FromStr>::from_str` never fails on a slice
produced by the float grammar (optional `-`, digits, `.`, optional digits),
and no rule in the repository reads the numeric value of a float token. -/
inductive Token where
  | Bool (b : Bool)
  | Integer (v : Int)
  | Float (slice : String)
  | Op (s : String)
  | Ctrl (c : Char)
  | TypeName (t : Ty)
  | Ident (s : String)
  | Comment (s : String)
  | Keyword (s : String)
  | Preprocessor (s : String)
  | Other (c : Char)
deriving DecidableEq, Repr

/-- Outcome of one deterministic PEG parser (a chumsky combinator tree is a
deterministic parser with ordered choice and backtracking-on-failure):
success with a value and the remaining input, failure (the caller backtracks),
or a Rust panic raised inside a `map` closure. -/
inductive POut (σ α : Type) where
  | ok (val : α) (rest : List σ)
  | fail
  | panic (msg : String)
deriving Repr, DecidableEq

/-- Chumsky `.padded()` skips `char::is_whitespace` characters on both sides
of the wrapped parser (modelled by its ASCII subset, which is all the
whitespace the formatter stage can let through). -/
def isWsChar (c : Char) : Bool := c = ' ' || c = '\t' || c = '\r' || c = '\n'

/-- ASCII decimal digit test (`char::is_digit(10)`). -/
def isDigit10 (c : Char) : Bool := 48 ≤ c.toNat && c.toNat ≤ 57

/-- A deterministic PEG parser over a stream of `σ`. -/
def P (σ α : Type) := List σ → POut σ α

/-- Chumsky `a.or(b)`: ordered choice; on failure of `a` the input is rewound
and `b` is tried; a panic raised inside `a` propagates (Rust unwinding). -/
def pOrElse {σ α : Type} (p q : P σ α) : P σ α := fun s =>
  match p s with
  | .fail => q s
  | r => r

/-- `p.data.isPrefixOf s` for a string literal pattern (`chumsky::just`). -/
def strPfx (p : String) (s : List Char) : Bool := p.data.isPrefixOf s

/-- Rust `<i64 as FromStr>::from_str` on a slice matching `-?[0-9]+`
(the only shapes the integer token grammar can produce): `none` is the
out-of-range case, on which parser.rs line 95 `unwrap()`s and panics. -/
def parseI64 (s : List Char) : Option Int :=
  let core : List Char → Option Nat := fun ds =>
    if ds ≠ [] && ds.all isDigit10 then
      some (ds.foldl (fun acc c => acc * 10 + (c.toNat - 48)) 0)
    else none
  match s with
  | '-' :: ds =>
    match core ds with
    | some n => if n ≤ 2 ^ 63 then some (-(n : Int)) else none
    | none => none
  | ds =>
    match core ds with
    | some n => if n < 2 ^ 63 then some (n : Int) else none
    | none => none

/-- chumsky `text::int(10)`: a digit run with no leading zero — either a
nonzero digit followed by any digits, or the single digit `0`. -/
def textInt : P Char (List Char) := fun s =>
  match s with
  | c :: t =>
    if isDigit10 c && c ≠ '0' then
      .ok (c :: t.takeWhile isDigit10) (t.dropWhile isDigit10)
    else if c = '0' then .ok [ '0'] t
    else .fail
  | [] => .fail

/-- chumsky `.padded()`: skip whitespace on both sides of the parser. -/
def padP {α : Type} (p : P Char α) : P Char α := fun s =>
  match p (s.dropWhile isWsChar) with
  | .ok v r => .ok v (r.dropWhile isWsChar)
  | .fail => .fail
  | .panic m => .panic m

/-- chumsky `just('-').or_not()` at the front of the number parsers: split
off a leading minus sign. -/
def minusSplit (s : List Char) : List Char × List Char :=
  match s with
  | '-' :: t => ([ '-'], t)
  | _ => ([], s)

/-- parser.rs lines 90-96: the integer token parser (before its `.padded()`):
optional `-`, `text::int(10)`, a negative lookahead for `.`, and
`value.parse().unwrap()` — the unwrap panics when the slice overflows `i64`. -/
def integerCore : P Char Token := fun s =>
  let pre := minusSplit s
  match textInt pre.2 with
  | .ok ds r =>
    match r with
    | '.' :: _ => .fail
    | _ =>
      match parseI64 (pre.1 ++ ds) with
      | some v => .ok (Token.Integer v) r
      | none => .panic ("called `Result::unwrap()` on an `Err` value: ParseIntError")
  | _ => .fail

/-- parser.rs lines 99-106: the float token parser (before its `.padded()`):
optional `-`, `text::int(10)`, a mandatory `.`, then `text::digits(10).or_not()`
— so the fraction digits are optional and a trailing `.` is consumed. -/
def floatCore : P Char Token := fun s =>
  let pre := minusSplit s
  match textInt pre.2 with
  | .ok ds r =>
    match r with
    | '.' :: r₂ =>
      let fs := r₂.takeWhile isDigit10
      .ok (Token.Float (String.mk (pre.1 ++ ds ++ '.' :: fs)))
        (r₂.dropWhile isDigit10)
    | _ => .fail
  | _ => .fail

/-- `integer` with its `.padded()` (parser.rs line 96). -/
def integerP : P Char Token := padP integerCore

/-- `float` with its `.padded()` (parser.rs line 106). -/
def floatP : P Char Token := padP floatCore

/-- Body of a C comment: characters up to the closing `*/` (which is
consumed); `none` when the comment is unterminated. -/
def ccBody : List Char → Option (List Char × List Char)
  | '*' :: '/' :: t => some ([], t)
  | c :: t => (ccBody t).map (fun p => (c :: p.1, p.2))
  | [] => none

/-- parser.rs lines 195-199: `/**` or `/*!` comments up to `*/`. -/
def cCommentP : P Char Token := fun s =>
  match s with
  | '/' :: '*' :: '*' :: t =>
    match ccBody t with
    | some (b, r) => .ok (Token.Comment (String.mk b)) r
    | none => .fail
  | '/' :: '*' :: '!' :: t =>
    match ccBody t with
    | some (b, r) => .ok (Token.Comment (String.mk b)) r
    | none => .fail
  | _ => .fail

/-- parser.rs lines 185-194: `//` comments.  (`just("//").or(just("///"))`
always matches just `//` first.)  The rest-of-line slice is wrapped in
`.padded()`, so whitespace right after `//` is skipped before the slice, and
trailing whitespace (including the newline) is consumed after it. -/
def simpleCommentP : P Char Token := fun s =>
  match s with
  | '/' :: '/' :: t =>
    let t₁ := t.dropWhile isWsChar
    let body := t₁.takeWhile (fun c => c ≠ '\n')
    .ok (Token.Comment (String.mk body))
      ((t₁.dropWhile (fun c => c ≠ '\n')).dropWhile isWsChar)
  | _ => .fail

/-- parser.rs line 200: `c_comment.or(simple_comment)`. -/
def commentP : P Char Token := pOrElse cCommentP simpleCommentP

/-- parser.rs lines 140-151: `#if` (optionally `defined`) and the rest of the
line; the whole consumed span (padding included) is the token text. -/
def preprocIfP : P Char Token := fun s =>
  let s₀ := s.dropWhile isWsChar
  if strPfx ("#if") s₀ then
    let t := (s₀.drop 3).dropWhile isWsChar
    let t := if strPfx ("defined") t then t.drop 7 else t
    let t := t.dropWhile isWsChar
    let t := t.dropWhile (fun c => c ≠ '\n')
    let t := t.dropWhile isWsChar
    .ok (Token.Preprocessor (String.mk (s.take (s.length - t.length)))) t
  else .fail

/-- parser.rs lines 152-163: `#else` / `#elif` and the rest of the line. -/
def preprocElseP : P Char Token := fun s =>
  let s₀ := s.dropWhile isWsChar
  if strPfx ("#else") s₀ || strPfx ("#elif") s₀ then
    let t := (s₀.drop 5).dropWhile isWsChar
    let t := t.dropWhile isWsChar
    let t := t.dropWhile (fun c => c ≠ '\n')
    let t := t.dropWhile isWsChar
    .ok (Token.Preprocessor (String.mk (s.take (s.length - t.length)))) t
  else .fail

/-- parser.rs line 164: `#endif`. -/
def preprocEndP : P Char Token := fun s =>
  if strPfx ("#endif") s then .ok (Token.Preprocessor ("#endif")) (s.drop 6)
  else .fail

/-- parser.rs lines 170-175: the rest-of-line of a generic directive, stopping
at end of line or at a following `struct`/`layout`. -/
def preprocOtherBody : List Char → List Char × List Char := fun s =>
  match s with
  | [] => ([], [])
  | c :: t =>
    if c = '\n' || strPfx ("struct") (c :: t) || strPfx ("layout") (c :: t) then
      ([], c :: t)
    else
      let p := preprocOtherBody t
      (c :: p.1, p.2)

/-- chumsky `text::ascii::ident()`: `[a-zA-Z_][a-zA-Z0-9_]*`. -/
def identCore : P Char (List Char) := fun s =>
  match s with
  | c :: t =>
    if c.isAlpha || c = '_' then
      .ok (c :: t.takeWhile (fun d => d.isAlphanum || d = '_'))
        (t.dropWhile (fun d => d.isAlphanum || d = '_'))
    else .fail
  | [] => .fail

/-- parser.rs lines 165-178: `#` + identifier + guessed rest of line. -/
def preprocOtherP : P Char Token := fun s =>
  let s₀ := s.dropWhile isWsChar
  match s₀ with
  | '#' :: t =>
    match identCore t with
    | .ok _ r =>
      let r := r.dropWhile isWsChar
      let r := r.dropWhile isWsChar
      let body := preprocOtherBody r
      let r₂ := body.2.dropWhile isWsChar
      .ok (Token.Preprocessor (String.mk (s.take (s.length - r₂.length)))) r₂
    | _ => .fail
  | _ => .fail

/-- parser.rs lines 179-182. -/
def preprocessorP : P Char Token :=
  pOrElse (pOrElse (pOrElse preprocIfP preprocElseP) preprocEndP) preprocOtherP

/-- The operator character set of parser.rs line 109. -/
def isOpChar (c : Char) : Bool := ("+*-/!=%|~&").data.contains c

/-- parser.rs lines 109-113: maximal run of operator characters. -/
def singleCharOperatorP : P Char Token := fun s =>
  match s.takeWhile isOpChar with
  | [] => .fail
  | run => .ok (Token.Op (String.mk run)) (s.dropWhile isOpChar)

/-- parser.rs line 115: `>=` / `<=`. -/
def multiCharOperatorP : P Char Token := fun s =>
  if strPfx (">=") s then .ok (Token.Op (">=")) (s.drop 2)
  else if strPfx ("<=") s then .ok (Token.Op ("<=")) (s.drop 2)
  else .fail

/-- parser.rs line 118: the control characters `()[]{};,:<>.`. -/
def ctrlChars : List Char :=
  [ '(', ')', '[', ']', lbrace, rbrace, ';', ',', ':', '<', '>', '.']

/-- parser.rs line 118. -/
def ctrlP : P Char Token := fun s =>
  match s with
  | c :: t => if ctrlChars.contains c then .ok (Token.Ctrl c) t else .fail
  | [] => .fail

/-- parser.rs lines 121-137: the keyword/type table applied to an identifier. -/
def keywordToken (id : String) : Token :=
  match id with
  | "true" => .Bool true
  | "false" => .Bool false
  | "void" => .TypeName .Void
  | "float" => .TypeName .Float
  | "half" => .TypeName .Float
  | "double" => .TypeName .Float
  | "int" => .TypeName .Integer
  | "uint" => .TypeName .Integer
  | "dword" => .TypeName .Integer
  | "bool" => .TypeName .Bool
  | "float4" => .TypeName .Vector
  | "vec4" => .TypeName .Vector
  | "float2" => .TypeName .Vector
  | "vec2" => .TypeName .Vector
  | "float3" => .TypeName .Vector
  | "vec3" => .TypeName .Vector
  | "uint4" => .TypeName .Vector
  | "uvec4" => .TypeName .Vector
  | "uint3" => .TypeName .Vector
  | "uvec3" => .TypeName .Vector
  | "uint2" => .TypeName .Vector
  | "uvec2" => .TypeName .Vector
  | "float4x4" => .TypeName .Matrix
  | "mat4x4" => .TypeName .Matrix
  | "float3x3" => .TypeName .Matrix
  | "mat3x3" => .TypeName .Matrix
  | "float2x2" => .TypeName .Matrix
  | "mat2x2" => .TypeName .Matrix
  | "Texture2D" => .TypeName .Texture
  | "sampler2D" => .TypeName .Texture
  | "SamplerState" => .TypeName .Sampler
  | "SamplerComparisonState" => .TypeName .Sampler
  | "return" => .Keyword ("return")
  | other => .Ident other

/-- parser.rs lines 121-137: identifiers and keywords. -/
def identP : P Char Token := fun s =>
  match identCore s with
  | .ok slice r => .ok (keywordToken (String.mk slice)) r
  | _ => .fail

/-- parser.rs line 211: `any().map(Token::Other)`. -/
def anyOtherP : P Char Token := fun s =>
  match s with
  | c :: t => .ok (Token.Other c) t
  | [] => .fail

/-- parser.rs lines 203-211: the full single-token parser, alternatives in
source order. -/
def tokenP : P Char Token :=
  pOrElse floatP (pOrElse integerP (pOrElse commentP (pOrElse preprocessorP
    (pOrElse singleCharOperatorP (pOrElse multiCharOperatorP
      (pOrElse ctrlP (pOrElse identP anyOtherP)))))))

/-- Result of running `token_parser().parse(...)`: a Rust panic, a parse error
at a position (chumsky reports the first error when the whole input is not
consumed), or the token list with (start, end) spans. -/
inductive LexResult where
  | panic (msg : String)
  | err (pos : Nat)
  | ok (toks : List (Token × Nat × Nat))
deriving Repr, DecidableEq

/-- parser.rs lines 213-217: `token.map_with(span).padded().repeated().collect()`
run to the end of input.  `fullLen` is the length of the whole input; `fuel`
only bounds the recursion and is always called with more fuel than there are
input characters (each successful token consumes at least one character). -/
def lexLoop (fullLen : Nat) : Nat → List Char → LexResult
  | 0, s => if s = [] then .ok [] else .err (fullLen - s.length)
  | fuel + 1, s =>
    let s₁ := s.dropWhile isWsChar
    match tokenP s₁ with
    | .panic m => .panic m
    | .fail => if s = [] then .ok [] else .err (fullLen - s.length)
    | .ok t r =>
      match lexLoop fullLen fuel (r.dropWhile isWsChar) with
      | .ok toks => .ok ((t, fullLen - s₁.length, fullLen - r.length) :: toks)
      | other => other

/-- `token_parser().parse(content)` (spans are character offsets; on the ASCII
inputs considered here these coincide with the source's byte offsets). -/
def runTokenParser (content : List Char) : LexResult :=
  lexLoop content.length (content.length + 1) content

/-- helpers.rs lines 1-21: `span_offset_to_line_and_column` (inner loop). -/
def spanLoop (target : Nat) : Nat → Nat → Nat → List Char → Nat × Nat
  | _, _, _, [] => (0, 0)
  | line, col, offset, c :: rest =>
    let lc : Nat × Nat := if c = '\n' then (line + 1, 0) else (line, col)
    let col₂ := lc.2 + 1
    if offset = target then (lc.1, col₂ - 1)
    else spanLoop target lc.1 col₂ (offset + 1) rest

/-- helpers.rs: `span_offset_to_line_and_column`. -/
def spanOffsetToLineAndColumn (target : Nat) (contents : List Char) : Nat × Nat :=
  spanLoop target 1 0 0 contents

/-- parser.rs lines 41-46: `StructField` (`_type` is spelled `ty`). -/
structure StructField where
  ty : Ty
  name : String
  docs : String
deriving DecidableEq, Repr

/-- parser.rs lines 49-54: `StructInfo`. -/
structure StructInfo where
  name : String
  fields : List StructField
  docs : String
deriving DecidableEq, Repr

/-- parser.rs lines 57-62: `FuncArgument`. -/
structure FuncArgument where
  ty : Ty
  name : String
  isUsingSemantic : Bool
deriving DecidableEq, Repr

/-- parser.rs lines 65-71: `FunctionInfo`. -/
structure FunctionInfo where
  name : String
  args : List FuncArgument
  returnType : Ty
  docs : String
deriving DecidableEq, Repr

/-- parser.rs lines 73-79: `ComplexToken`. -/
inductive ComplexToken where
  | VariableDeclaration (ty : Ty) (name : String)
  | Struct (info : StructInfo)
  | Function (info : FunctionInfo)
  | Other (tok : Token)
deriving DecidableEq, Repr

/-- `comment.repeated().collect::<Vec<&str>>()`: the leading run of comment
tokens and the rest of the stream. -/
def commentsRun : List Token → List String × List Token
  | Token.Comment c :: r =>
    let p := commentsRun r
    (c :: p.1, p.2)
  | s => ([], s)

/-- parser.rs lines 231-237: the GLSL `layout(...)` parser (its output is
ignored by the struct parser). -/
def layoutP : P Token Unit := fun s =>
  match s with
  | Token.Ident ("layout") :: Token.Ctrl '(' :: rest =>
    let rest₂ :=
      match rest with
      | Token.Ident _ :: Token.Ctrl ',' :: r => r
      | _ => rest
    match rest₂ with
    | Token.Ident ("binding") :: Token.Op ("=") :: Token.Integer _ ::
        Token.Ctrl ')' :: r => .ok () r
    | _ => .fail
  | _ => .fail

/-- parser.rs lines 240-262: one struct field. -/
def fieldP : P Token StructField := fun s =>
  let cr := commentsRun s
  let tyStep : Option (Ty × List Token) :=
    match cr.2 with
    | Token.TypeName t :: r => some (t, r)
    | Token.Ident _ :: r => some (Ty.Custom, r)
    | _ => none
  match tyStep with
  | some (t, r) =>
    match r with
    | Token.Ident name :: r₂ =>
      let arrStep : Bool × List Token :=
        match r₂ with
        | Token.Ctrl '[' :: rr => (true, rr)
        | _ => (false, r₂)
      let r₄ := arrStep.2.dropWhile (fun tk => !(tk == Token.Ctrl ';'))
      match r₄ with
      | Token.Ctrl ';' :: r₅ =>
        .ok { ty := if arrStep.1 then Ty.Array else t, name := name,
              docs := String.join cr.1 } r₅
      | _ => .fail
    | _ => .fail
  | none => .fail

/-- parser.rs lines 265-277: a variable declaration. -/
def variableDeclarationP : P Token ComplexToken := fun s =>
  match s with
  | Token.TypeName t :: Token.Ident name :: r =>
    let arrStep : Bool × List Token :=
      match r with
      | Token.Ctrl '[' :: rr => (true, rr)
      | _ => (false, r)
    let r₃ :=
      match arrStep.2 with
      | Token.Op ("=") :: rr => rr
      | rr => rr
    let r₄ := r₃.dropWhile (fun tk => !(tk == Token.Ctrl ';'))
    let r₅ :=
      match r₄ with
      | Token.Ctrl ';' :: rr => rr
      | rr => rr
    .ok (ComplexToken.VariableDeclaration (if arrStep.1 then Ty.Array else t) name) r₅
  | _ => .fail

/-- `field.repeated().collect()`: `fuel` only bounds the recursion (each
successful field consumes at least three tokens). -/
def fieldsLoop : Nat → List Token → List StructField × List Token
  | 0, s => ([], s)
  | fuel + 1, s =>
    match fieldP s with
    | .ok f r =>
      let p := fieldsLoop fuel r
      (f :: p.1, p.2)
    | _ => ([], s)

/-- parser.rs lines 280-300: a struct/uniform/buffer declaration. -/
def structP (fuel : Nat) : P Token ComplexToken := fun s =>
  let cr := commentsRun s
  let s₁ :=
    match layoutP cr.2 with
    | .ok _ r => r
    | _ => cr.2
  let s₂ :=
    match s₁ with
    | Token.Ident ("readonly") :: r => r
    | r => r
  match s₂ with
  | Token.Ident kw :: r =>
    if kw = ("struct") || kw = ("uniform") || kw = ("buffer") then
      match r with
      | Token.Ident name :: Token.Ctrl c :: r₂ =>
        if c = lbrace then
          let fl := fieldsLoop fuel r₂
          let r₃ :=
            match fl.2 with
            | Token.Ctrl c₂ :: rr => if c₂ = rbrace then rr else fl.2
            | _ => fl.2
          .ok (ComplexToken.Struct
            { name := name, fields := fl.1, docs := String.join cr.1 }) r₃
        else .fail
      | _ => .fail
    else .fail
  | _ => .fail

/-- parser.rs lines 303-306: the optional `in`/`out`/`uniform` modifier. -/
def argModSkip (s : List Token) : List Token :=
  match s with
  | Token.Ident m :: r =>
    if m = ("in") || m = ("out") || m = ("uniform") then r else s
  | _ => s

/-- parser.rs lines 309-322: an argument with an HLSL semantic. -/
def argumentSemanticP : P Token FuncArgument := fun s =>
  match argModSkip s with
  | Token.TypeName t :: Token.Ident name :: Token.Ctrl ':' :: Token.Ident _ ::
      Token.Ctrl c :: r =>
    if c = ',' || c = ')' then
      .ok { ty := t, name := name, isUsingSemantic := true } r
    else .fail
  | _ => .fail

/-- parser.rs lines 325-334: an argument with a custom (identifier) type. -/
def customArgumentP : P Token FuncArgument := fun s =>
  match argModSkip s with
  | Token.Ident _ :: Token.Ident name :: Token.Ctrl c :: r =>
    if c = ',' || c = ')' then
      .ok { ty := Ty.Custom, name := name, isUsingSemantic := false } r
    else .fail
  | _ => .fail

/-- parser.rs lines 337-345: an argument with a standard type. -/
def stdArgumentP : P Token FuncArgument := fun s =>
  match argModSkip s with
  | Token.TypeName t :: Token.Ident name :: Token.Ctrl c :: r =>
    if c = ',' || c = ')' then
      .ok { ty := t, name := name, isUsingSemantic := false } r
    else .fail
  | _ => .fail

/-- parser.rs line 348: `std_argument.or(argument_semantic).or(custom_argument)`. -/
def argumentP : P Token FuncArgument :=
  pOrElse stdArgumentP (pOrElse argumentSemanticP customArgumentP)

/-- parser.rs lines 351-353: the return type.  (`ident` only matches an
`Ident` token, which is never the `Keyword("return")` token, so the
`and_is(...not())` lookahead always passes when `ident` does.) -/
def funcReturnTypeP : P Token Ty := fun s =>
  match s with
  | Token.TypeName t :: r => .ok t r
  | Token.Ident _ :: r => .ok Ty.Custom r
  | _ => .fail

/-- `argument.repeated().collect()`. -/
def argsLoop : Nat → List Token → List FuncArgument × List Token
  | 0, s => ([], s)
  | fuel + 1, s =>
    match argumentP s with
    | .ok a r =>
      let p := argsLoop fuel r
      (a :: p.1, p.2)
    | _ => ([], s)

/-- parser.rs lines 356-371: a function declaration. -/
def functionP (fuel : Nat) : P Token ComplexToken := fun s =>
  let cr := commentsRun s
  match funcReturnTypeP cr.2 with
  | .ok rt r =>
    match r with
    | Token.Ident name :: Token.Ctrl '(' :: r₂ =>
      let al := argsLoop fuel r₂
      let r₃ :=
        match al.2 with
        | Token.Ctrl ')' :: rr => rr
        | rr => rr
      .ok (ComplexToken.Function
        { name := name, args := al.1, returnType := rt, docs := String.join cr.1 }) r₃
    | _ => .fail
  | _ => .fail

/-- parser.rs lines 374-377: struct, else function, else variable declaration,
else pass the token through. -/
def outputP (fuel : Nat) : P Token ComplexToken :=
  pOrElse (structP fuel) (pOrElse (functionP fuel) (pOrElse variableDeclarationP
    (fun s =>
      match s with
      | tk :: r => .ok (ComplexToken.Other tk) r
      | [] => .fail)))

/-- Result of `complex_token_parser().parse(...)`: the declaration spans of the
source (attached with `map_with`) are only read by the debug printer, so they
are not modelled; the error position of the (unreachable — the last
alternative of `outputP` accepts any token) error case is not tracked. -/
inductive ComplexResult where
  | err (pos : Nat)
  | ok (toks : List ComplexToken)
deriving Repr, DecidableEq

/-- parser.rs lines 379-382: `output.repeated().collect()` run to the end of
the token stream. -/
def complexLoop : Nat → List Token → ComplexResult
  | 0, s => if s = [] then .ok [] else .err 0
  | fuel + 1, s =>
    match outputP (s.length + 1) s with
    | .ok ct r =>
      match complexLoop fuel r with
      | .ok cts => .ok (ct :: cts)
      | e => e
    | _ => if s = [] then .ok [] else .err 0

/-- `complex_token_parser().parse(tokens)`. -/
def runComplexParser (toks : List Token) : ComplexResult :=
  complexLoop (toks.length + 1) toks

/-- Word separator characters of the spec's case-conversion description. -/
def isWordSep (c : Char) : Bool := c = '_' || c = '-'

/-- A word boundary between adjacent characters: lower→upper or letter→digit. -/
def wordBoundary (a b : Char) : Bool :=
  (a.isLower && b.isUpper) || (a.isAlpha && b.isDigit)

/-- Split an identifier into words (helper of `splitWords`): `cur` is the word
being accumulated and `prev` the previous character when it can form a
boundary with the next one. -/
def splitWordsGo (cur : List Char) (prev : Option Char) :
    List Char → List (List Char)
  | [] => [cur]
  | c :: t =>
    if isWordSep c then cur :: splitWordsGo [] none t
    else
      match prev with
      | some p =>
        if wordBoundary p c then cur :: splitWordsGo [c] (some c) t
        else splitWordsGo (cur ++ [c]) (some c) t
      | none => splitWordsGo (cur ++ [c]) (some c) t

/-- Modelled from the spec: the word-splitting half of the external
`convert_case` crate's `Casing::to_case` (the crate is a dependency, not part
of this repository's sources).  Spec §4.4: "split the identifier into words at
underscore/hyphen boundaries and at lower→upper or letter→digit transitions".
Empty words (from consecutive separators) are dropped. -/
def splitWords (s : List Char) : List (List Char) :=
  (splitWordsGo [] none s).filter (fun w => !w.isEmpty)

/-- Capitalize a word: first character uppercased, rest lowercased. -/
def capitalizeWord : List Char → List Char
  | [] => []
  | c :: r => c.toUpper :: r.map Char.toLower

/-- Modelled from the spec: the rejoining half of `Casing::to_case`.
Spec §4.4: "rejoin per target convention (camel: first word lowercase, rest
capitalized, no separators; Pascal: all words capitalized, no separators;
snake: words lowercased joined by `_`; upper-snake: words uppercased joined
by `_`)". -/
def toCaseConv (target : Case) (s : String) : String :=
  let ws := splitWords s.data
  match target with
  | Case.Camel =>
    String.mk
      (match ws with
        | [] => []
        | w :: rest => w.map Char.toLower ++ (rest.map capitalizeWord).flatten)
  | Case.Pascal => String.mk ((ws.map capitalizeWord).flatten)
  | Case.Snake =>
    String.mk (List.intercalate [ '_'] (ws.map (fun w => w.map Char.toLower)))
  | Case.UpperSnake =>
    String.mk (List.intercalate [ '_'] (ws.map (fun w => w.map Char.toUpper)))

/-- formatter.rs lines 817-830: `is_case_different` — convert and compare;
the error value is the converted string. -/
def isCaseDifferent (test : String) (targetCase : Case) : Except String Unit :=
  let converted := toCaseConv targetCase test
  if test ≠ converted then .error converted else .ok ()

/-- formatter.rs lines 786-794: `check_name_case`. -/
def checkNameCase (name : String) (c : Case) : Except String Unit :=
  match isCaseDifferent name c with
  | .ok _ => .ok ()
  | .error correct =>
    .error ("\"" ++ name ++ "\" has incorrect case, the correct case is \""
      ++ correct ++ "\"")

/-- Rust `str::is_ascii`. -/
def isAsciiStr (s : String) : Bool := s.data.all (fun c => c.toNat ≤ 127)

/-- formatter.rs lines 801-810: `check_prefix`. -/
def checkPfx (name pfx : String) : Except String Unit :=
  if !(strPfx pfx name.data) then
    .error ("variable \"" ++ name
      ++ "\" has incorrect prefix, the correct prefix is \"" ++ pfx ++ "\"")
  else .ok ()

/-- formatter.rs lines 737-784: `check_variable_name`. -/
def checkVariableName (cfg : Config) (name : String) (ty : Ty)
    (isGlobalScope : Bool) : Except String Unit :=
  -- Check global variable prefix (lines 744-765); on success the prefix is
  -- stripped from the name used by the remaining checks.
  let globalStep : Except String String :=
    match cfg.globalVariablePfx with
    | some gp =>
      if isGlobalScope then
        if !(strPfx gp name.data) then
          .error ("\"" ++ name
            ++ "\" has incorrect prefix because it's a global variable, the correct name is probably \""
            ++ (gp ++ name) ++ "\"")
        else if !(isAsciiStr name) && !(isAsciiStr gp) then
          .error ("expected global prefix rule \"" ++ gp ++ "\" and \"" ++ name
            ++ "\" to have an ASCII-only name")
        else .ok (String.mk (name.data.drop gp.data.length))
      else .ok name
    | none => .ok name
  match globalStep with
  | .error e => .error e
  | .ok name₂ =>
    -- Check case (lines 767-770).
    let caseStep : Except String Unit :=
      match cfg.variableCase with
      | some c => checkNameCase name₂ c
      | none => .ok ()
    match caseStep with
    | .error e => .error e
    | .ok _ =>
      -- Check type prefixes (lines 772-781).
      let boolStep : Except String Unit :=
        match cfg.boolPfx with
        | some p => if ty = Ty.Bool then checkPfx name₂ p else .ok ()
        | none => .ok ()
      match boolStep with
      | .error e => .error e
      | .ok _ =>
        let intStep : Except String Unit :=
          match cfg.intPfx with
          | some p => if ty = Ty.Integer then checkPfx name₂ p else .ok ()
          | none => .ok ()
        match intStep with
        | .error e => .error e
        | .ok _ =>
          match cfg.floatPfx with
          | some p => if ty = Ty.Float then checkPfx name₂ p else .ok ()
          | none => .ok ()

/-- formatter.rs line 871: `"@param "`. -/
def PARAM_KEYWORD : List Char := ("@param ").data

/-- Does `pat` occur in the list (Rust `str::find(..).is_some()`)? -/
def hasSubstr (pat : List Char) : List Char → Bool
  | [] => pat.isPrefixOf []
  | c :: t => pat.isPrefixOf (c :: t) || hasSubstr pat t

/-- formatter.rs line 873: `match_indices("@param ")`, returning for each
occurrence the text after the keyword.  (Rust resumes the search after the
matched keyword; since `"@param "` cannot overlap itself, resuming at the next
character — as done here for structural recursion — finds the same set of
occurrences.) -/
def paramOccurrences : List Char → List (List Char)
  | [] => []
  | c :: t =>
    if PARAM_KEYWORD.isPrefixOf (c :: t) then t.drop 6 :: paramOccurrences t
    else paramOccurrences t

/-- formatter.rs lines 875-895: extract the argument name after `@param `
(skip spaces, then collect up to the next space; the docs are ASCII here, so
the source's byte loop coincides with this character loop). -/
def extractParamName (rest : List Char) : String :=
  String.mk ((rest.dropWhile (fun c => c = ' ')).takeWhile (fun c => c ≠ ' '))

/-- The names collected by the `documented_args` loop of check_function_docs. -/
def documentedArgs (docs : String) : List String :=
  (paramOccurrences docs.data).map extractParamName

/-- formatter.rs lines 897-920: the two argument/docs cross checks. -/
def checkFunctionDocsArgs (info : FunctionInfo) : Except String Unit :=
  match info.args.find?
      (fun a => !a.isUsingSemantic && !((documentedArgs info.docs).contains a.name)) with
  | some a =>
    .error ("expected to find documentation for the argument \"" ++ a.name
      ++ "\" of the function \"" ++ info.name ++ "\"")
  | none =>
    match (documentedArgs info.docs).find?
        (fun d => !(info.args.any (fun a => a.name == d))) with
    | some d =>
      .error ("found documentation for a non-existing argument \"" ++ d
        ++ "\" of the function \"" ++ info.name ++ "\"")
    | none => .ok ()

/-- formatter.rs lines 836-922: `check_function_docs`. -/
def checkFunctionDocs (info : FunctionInfo) : Except String Unit :=
  if info.docs = ("") then
    .error ("expected to find documentation for the function \"" ++ info.name
      ++ "\"")
  else if !(isAsciiStr info.docs) then
    .error ("expected the documentation for the function \"" ++ info.name
      ++ "\" to only use ASCII characters")
  else
    let returnDocFound := hasSubstr (("@return").data) info.docs.data
    if info.returnType ≠ Ty.Void then
      if !returnDocFound then
        .error ("expected to find documentation of the return value for the function \""
          ++ info.name ++ "\"")
      else checkFunctionDocsArgs info
    else if returnDocFound then
      .error ("found documentation of the VOID return value for the function \""
        ++ info.name ++ "\"")
    else checkFunctionDocsArgs info

/-- formatter.rs lines 928-938: `check_struct_docs`. -/
def checkStructDocs (info : StructInfo) : Except String Unit :=
  if info.docs = ("") then
    .error ("expected to find documentation for the struct \"" ++ info.name
      ++ "\"")
  else .ok ()

/-- formatter.rs lines 959-971: `check_struct_field_docs`. -/
def checkStructFieldDocs (info : StructInfo) : Except String Unit :=
  match info.fields.find? (fun f => f.docs == ("")) with
  | some f =>
    .error ("expected to find documentation for the struct field \"" ++ f.name
      ++ "\"")
  | none => .ok ()

/-- `text.starts_with(...)` on embedded strings. -/
def strStartsWith (s pat : String) : Bool := pat.data.isPrefixOf s.data

/-- The scope/nolint state of `check_complex_rules` (formatter.rs 626-628). -/
structure CheckSt where
  isGlobalScope : Bool
  isInsideNolint : Bool
  scopeNesting : Nat
deriving DecidableEq, Repr

/-- formatter.rs lines 645-650: is the next (peeked) token a NOLINT comment? -/
def isNolintNext : List ComplexToken → Bool
  | ComplexToken.Other (Token.Comment text) :: _ => strStartsWith text ("NOLINT")
  | _ => false

/-- formatter.rs line 726. -/
def nolintEndErrMsg : String :=
  "`NOLINTBEGIN` was found but no matching `NOLINTEND` detected"

/-- formatter.rs line 711. -/
def scopeUnderflowErrMsg : String :=
  "found '\x7d' but scope nesting counter is already zero"

/-- formatter.rs lines 656-684: the checks of the `Struct` arm
(`is_global_scope` is false while fields are checked and restored after). -/
def structChecks (cfg : Config) (info : StructInfo) : Except String Unit :=
  match (if cfg.requireDocsOnStructs then checkStructDocs info else .ok ()) with
  | .error e => .error e
  | .ok _ =>
    let caseStep : Except String Unit :=
      match cfg.structCase with
      | some c => checkNameCase info.name c
      | none => .ok ()
    match caseStep with
    | .error e => .error e
    | .ok _ =>
      match checkFields cfg info.fields with
      | .error e => .error e
      | .ok _ =>
        if cfg.requireDocsOnFields then checkStructFieldDocs info else .ok ()
where
  /-- the per-field `check_variable_name` loop (fields are not global). -/
  checkFields (cfg : Config) : List StructField → Except String Unit
    | [] => .ok ()
    | f :: rest =>
      match checkVariableName cfg f.name f.ty false with
      | .error e => .error e
      | .ok _ => checkFields cfg rest

/-- formatter.rs lines 685-703: the checks of the `Function` arm (scope is no
longer global when the arguments are checked). -/
def functionChecks (cfg : Config) (info : FunctionInfo) : Except String Unit :=
  match (if cfg.requireDocsOnFunctions then checkFunctionDocs info else .ok ()) with
  | .error e => .error e
  | .ok _ =>
    let caseStep : Except String Unit :=
      match cfg.functionCase with
      | some c => checkNameCase info.name c
      | none => .ok ()
    match caseStep with
    | .error e => .error e
    | .ok _ => checkArgs cfg info.args
where
  /-- the per-argument `check_variable_name` loop. -/
  checkArgs (cfg : Config) : List FuncArgument → Except String Unit
    | [] => .ok ()
    | a :: rest =>
      match checkVariableName cfg a.name a.ty false with
      | .error e => .error e
      | .ok _ => checkArgs cfg rest

/-- formatter.rs lines 630-729: the token loop of `check_complex_rules`. -/
def checkLoop (cfg : Config) : CheckSt → List ComplexToken → Except String Unit
  | st, [] => if st.isInsideNolint then .error nolintEndErrMsg else .ok ()
  | st, ct :: rest =>
    -- Check for nolint section (lines 632-639).
    let st :=
      match ct with
      | ComplexToken.Other (Token.Comment text) =>
        if strStartsWith text ("NOLINTBEGIN") then { st with isInsideNolint := true }
        else if strStartsWith text ("NOLINTEND") then { st with isInsideNolint := false }
        else st
      | _ => st
    if st.isInsideNolint then checkLoop cfg st rest
    else if isNolintNext rest then checkLoop cfg st rest
    else
      match ct with
      | ComplexToken.VariableDeclaration ty name =>
        match checkVariableName cfg name ty st.isGlobalScope with
        | .error e => .error e
        | .ok _ => checkLoop cfg st rest
      | ComplexToken.Struct info =>
        match structChecks cfg info with
        | .error e => .error e
        | .ok _ => checkLoop cfg { st with isGlobalScope := true } rest
      | ComplexToken.Function info =>
        match functionChecks cfg info with
        | .error e => .error e
        | .ok _ =>
          checkLoop cfg { st with isGlobalScope := false, scopeNesting := 0 } rest
      | ComplexToken.Other tok =>
        if !st.isGlobalScope then
          if tok = Token.Ctrl lbrace then
            checkLoop cfg { st with scopeNesting := st.scopeNesting + 1 } rest
          else if tok = Token.Ctrl rbrace then
            if st.scopeNesting = 0 then .error scopeUnderflowErrMsg
            else
              let n := st.scopeNesting - 1
              let st := { st with scopeNesting := n }
              let st := if n = 0 then { st with isGlobalScope := true } else st
              checkLoop cfg st rest
          else checkLoop cfg st rest
        else checkLoop cfg st rest

/-- formatter.rs lines 621-730: `check_complex_rules`. -/
def checkComplexRules (cfg : Config) (toks : List ComplexToken) :
    Except String Unit :=
  checkLoop cfg { isGlobalScope := true, isInsideNolint := false, scopeNesting := 0 } toks

/-- The four error kinds `Formatter::format` can produce, tagged by the stage
that produced them (formatter.rs lines 50-131); `renderFmtError` recovers the
exact message string the source builds. -/
inductive FmtError where
  | layout (msg : String)
  | lexer (line col : Nat) (reason : String)
  | stmt (line col : Nat) (reason : String)
  | semantic (msg : String)
deriving DecidableEq, Repr

/-- The message strings of formatter.rs lines 53, 69-72, 104-107 and 128. -/
def renderFmtError : FmtError → String
  | .layout m => CHANGES_REQUIRED_ERR_MSG ++ ": " ++ m
  | .lexer l c r =>
    "token parser error at line " ++ toString l ++ " column " ++ toString c
      ++ ", reason: " ++ r
  | .stmt l c r =>
    "statement parser error at line " ++ toString l ++ " column " ++ toString c
      ++ ", reason: " ++ r
  | .semantic m => CHANGES_REQUIRED_ERR_MSG ++ ": " ++ m

/-- Outcome of `Formatter::format`: `Ok`, `Err`, or a Rust panic (a crash that
produces no `Result` at all). -/
inductive FmtOutcome where
  | panic (msg : String)
  | error (e : FmtError)
  | ok (s : String)
deriving DecidableEq, Repr

/-- formatter.rs lines 44-132: `Formatter::format` (`print_tokens`, which only
adds stdout logging, is dropped).  The chumsky `Rich` error reason texts are
modelled as fixed placeholder strings — nothing in the repository reads
them. -/
def formatE (cfg : Config) (content : String) : FmtOutcome :=
  -- Exit on empty input (lines 45-48).
  if content.isEmpty then .ok content
  else
    match applySimpleRules cfg content.data with
    | .error msg => .error (.layout msg)
    | .ok output =>
      match runTokenParser output with
      | .panic m => .panic m
      | .err pos =>
        let lc := spanOffsetToLineAndColumn pos output
        .error (.lexer lc.1 lc.2 ("found unexpected input"))
      | .ok tokens =>
        match runComplexParser (tokens.map Prod.fst) with
        | .err pos =>
          let lc := spanOffsetToLineAndColumn pos output
          .error (.stmt lc.1 lc.2 ("found unexpected token"))
        | .ok ctoks =>
          match checkComplexRules cfg ctoks with
          | .error msg => .error (.semantic msg)
          | .ok _ => .ok (String.mk output)

/-- A `ComplexToken` that is a comment starting with `NOLINTEND` (the only
token that can clear the `is_inside_nolint` flag, formatter.rs line 636). -/
def isNolintEndComment : ComplexToken → Bool
  | ComplexToken.Other (Token.Comment text) => strStartsWith text ("NOLINTEND")
  | _ => false

/-- The two error kinds whose messages `Formatter::format` prepends the
`CHANGES_REQUIRED_ERR_MSG` marker to (formatter.rs lines 53 and 128). -/
def isChangesRequiredKind : FmtError → Bool
  | .layout _ => true
  | .semantic _ => true
  | .lexer _ _ _ => false
  | .stmt _ _ _ => false

/-- The semantic-rule-violation error kind (produced only by
`check_complex_rules`, formatter.rs lines 126-129). -/
def isSemanticKind : FmtError → Bool
  | .semantic _ => true
  | _ => false

/-- One step of the newline-run scan: track (longest run seen, current
trailing run) over the characters of a text. -/
def nlStep (p : Nat × Nat) (c : Char) : Nat × Nat :=
  if c = '\n' then (max p.1 (p.2 + 1), p.2 + 1) else (p.1, 0)

/-- Longest run of consecutive `\n` characters and trailing `\n` run. -/
def nlStats (l : List Char) : Nat × Nat := l.foldl nlStep (0, 0)

/-- Length of the longest run of consecutive line breaks in a text. -/
def maxNewlineRun (l : List Char) : Nat := (nlStats l).1

/-- Length of the trailing run of line breaks of a text. -/
def trailNewlineRun (l : List Char) : Nat := (nlStats l).2

/-- The blank-line invariant of the apply_simple_rules scan: the output's
longest newline run is bounded by `max_empty_lines + 1`, and the trailing
newline run never exceeds the `consecutive_empty_new_line_count` counter
(which gates further newline emissions). -/
def FmtInv (n : Nat) (st : FmtSt) : Prop :=
  maxNewlineRun st.out ≤ n + 1 ∧ trailNewlineRun st.out ≤ st.consecEmpty

/-- An output block that respects the blank-line bound and ends in a
non-newline character (or is empty). -/
def GoodOut (n : Nat) (l : List Char) : Prop :=
  maxNewlineRun l ≤ n + 1 ∧ trailNewlineRun l = 0

/-- The chumsky `text::int(10)` input shapes: a single `0`, or a nonzero
digit followed by digits. -/
def isIntSlice (ds : List Char) : Bool :=
  match ds with
  | c :: t => (isDigit10 c && c ≠ '0' && t.all isDigit10) || ds == [ '0']
  | [] => false

/-- The success condition of `check_function_docs` as the claim states it:
docs non-empty and ASCII, a `@return` tag exactly when the return type is not
`Void`, every non-semantic argument documented by some `@param <name>` tag,
and every `@param <name>` tag naming a declared argument. -/
def FunctionDocsSpec (info : FunctionInfo) : Prop :=
  info.docs ≠ ("") ∧ isAsciiStr info.docs = true ∧
    (hasSubstr (("@return").data) info.docs.data = true ↔ info.returnType ≠ Ty.Void) ∧
    (∀ a ∈ info.args, a.isUsingSemantic = false → a.name ∈ documentedArgs info.docs) ∧
    (∀ d ∈ documentedArgs info.docs, ∃ a ∈ info.args, a.name = d)

/-! ### Helper lemmas -/

/-- A list is a prefix of itself followed by anything. -/
theorem isPrefixOf_self_append (l r : List Char) : l.isPrefixOf (l ++ r) = true := by
  induction l with
  | nil => simp [List.isPrefixOf]
  | cons c t ih => simp [List.isPrefixOf, ih]

/-- Two lists with different head characters: no prefix relation. -/
theorem isPrefixOf_cons_ne (a b : Char) (l r : List Char) (h : a ≠ b) :
    (a :: l).isPrefixOf (b :: r) = false := by
  simp [List.isPrefixOf, h]

/-- The marker test succeeds on a marker-prefixed message. -/
theorem strStartsWith_append (p s : String) : strStartsWith (p ++ s) p = true := by
  unfold strStartsWith
  rw [String.data_append]
  exact isPrefixOf_self_append p.data s.data

/-- `pOrElse` keeps the first parser's success. -/
theorem pOrElse_ok {σ α : Type} (p q : P σ α) (s : List σ) (v : α) (r : List σ)
    (h : p s = .ok v r) : pOrElse p q s = .ok v r := by
  unfold pOrElse
  rw [h]

/-- `pOrElse` falls through on the first parser's failure. -/
theorem pOrElse_fail {σ α : Type} (p q : P σ α) (s : List σ)
    (h : p s = .fail) : pOrElse p q s = q s := by
  unfold pOrElse
  rw [h]

/-- `takeWhile` over an all-satisfying block followed by a non-satisfying
head takes exactly the block. -/
theorem takeWhile_all_append (p : Char → Bool) (t rest : List Char)
    (ht : t.all p = true) (hr : ∀ c, rest.head? = some c → p c = false) :
    (t ++ rest).takeWhile p = t := by
  induction t with
  | nil =>
    cases rest with
    | nil => rfl
    | cons c r => simp [List.takeWhile, hr c rfl]
  | cons c t ih =>
    simp only [List.all_cons, Bool.and_eq_true] at ht
    simp [List.takeWhile, ht.1, ih ht.2]

/-- `dropWhile` counterpart of `takeWhile_all_append`. -/
theorem dropWhile_all_append (p : Char → Bool) (t rest : List Char)
    (ht : t.all p = true) (hr : ∀ c, rest.head? = some c → p c = false) :
    (t ++ rest).dropWhile p = rest := by
  induction t with
  | nil =>
    cases rest with
    | nil => rfl
    | cons c r => simp [List.dropWhile, hr c rfl]
  | cons c t ih =>
    simp only [List.all_cons, Bool.and_eq_true] at ht
    simp [List.dropWhile, ht.1, ih ht.2]

/-- A decimal digit is not lexer whitespace. -/
theorem digit_not_ws (c : Char) (h : isDigit10 c = true) : isWsChar c = false := by
  unfold isWsChar
  by_contra hne
  rw [Bool.not_eq_false, Bool.or_eq_true, Bool.or_eq_true, Bool.or_eq_true] at hne
  rcases hne with ((h1 | h2) | h3) | h4 <;>
    · simp only [decide_eq_true_eq] at *
      subst_vars
      exact absurd h (by decide)

/-- A decimal digit is not a dot. -/
theorem digit_ne_dot (c : Char) (h : isDigit10 c = true) : c ≠ '.' := by
  intro hc
  subst hc
  exact absurd h (by decide)

/-- Once `is_inside_nolint` is set and no later token is a `NOLINTEND`
comment, the checker skips every remaining token and ends with the unmatched
`NOLINTBEGIN` error (formatter.rs lines 641-644 and 725-727). -/
theorem checkLoop_inside_nolint (cfg : Config) (toks : List ComplexToken) :
    ∀ st : CheckSt, st.isInsideNolint = true →
      (∀ t ∈ toks, isNolintEndComment t = false) →
      checkLoop cfg st toks = .error nolintEndErrMsg := by
  induction toks with
  | nil =>
    intro st hin _
    simp [checkLoop, hin]
  | cons t rest ih =>
    intro st hin hend
    have hr : ∀ x ∈ rest, isNolintEndComment x = false :=
      fun x hx => hend x (List.mem_cons_of_mem _ hx)
    have ht : isNolintEndComment t = false := hend t (List.mem_cons_self _ _)
    cases t with
    | Other tok =>
      cases tok with
      | Comment text =>
        have htext : strStartsWith text ("NOLINTEND") = false := by
          simpa [isNolintEndComment] using ht
        by_cases hb : strStartsWith text ("NOLINTBEGIN") = true
        · simp only [checkLoop, hb, if_true]
          exact ih _ rfl hr
        · simp [checkLoop, Bool.of_not_eq_true hb, htext, hin, ih _ hin hr]
      | Bool b => simp [checkLoop, hin, ih _ hin hr]
      | Integer v => simp [checkLoop, hin, ih _ hin hr]
      | Float s => simp [checkLoop, hin, ih _ hin hr]
      | Op s => simp [checkLoop, hin, ih _ hin hr]
      | Ctrl c => simp [checkLoop, hin, ih _ hin hr]
      | TypeName t => simp [checkLoop, hin, ih _ hin hr]
      | Ident s => simp [checkLoop, hin, ih _ hin hr]
      | Keyword s => simp [checkLoop, hin, ih _ hin hr]
      | Preprocessor s => simp [checkLoop, hin, ih _ hin hr]
      | Other c => simp [checkLoop, hin, ih _ hin hr]
    | VariableDeclaration ty name => simp [checkLoop, hin, ih _ hin hr]
    | Struct info => simp [checkLoop, hin, ih _ hin hr]
    | Function info => simp [checkLoop, hin, ih _ hin hr]

/-- Messages built from the token-parser-error template never carry the
`changes required` marker (they start with `t`, the marker with `c`). -/
theorem marker_not_pfx_token (s : String) :
    strStartsWith ("token parser error at line " ++ s) CHANGES_REQUIRED_ERR_MSG = false := by
  have h : ("token parser error at line " : String).data
      = 't' :: ("oken parser error at line " : String).data := rfl
  have h2 : (CHANGES_REQUIRED_ERR_MSG).data = 'c' :: ("hanges required" : String).data := rfl
  unfold strStartsWith
  rw [String.data_append, h, h2]
  exact isPrefixOf_cons_ne _ _ _ _ (by decide)

/-- Messages built from the statement-parser-error template never carry the
`changes required` marker. -/
theorem marker_not_pfx_stmt (s : String) :
    strStartsWith ("statement parser error at line " ++ s) CHANGES_REQUIRED_ERR_MSG = false := by
  have h : ("statement parser error at line " : String).data
      = 's' :: ("tatement parser error at line " : String).data := rfl
  have h2 : (CHANGES_REQUIRED_ERR_MSG).data = 'c' :: ("hanges required" : String).data := rfl
  unfold strStartsWith
  rw [String.data_append, h, h2]
  exact isPrefixOf_cons_ne _ _ _ _ (by decide)

/-! ### Claim theorems -/

/-- C9: for every configuration, `format` applied to the empty string returns
`Ok` with the empty string unchanged (the early exit of formatter.rs lines
45-48, taken before the layout formatter, lexer, parser or checker run). -/
theorem c9_empty_input_identity (cfg : Config) : formatE cfg ("") = .ok ("") := rfl

/-- C8: whenever the checker loop reaches a `}` control token while not in
global scope with the scope-nesting counter already at zero (and the token is
not suppressed by a NOLINT region or a peeked NOLINT comment), checking halts
and returns the inconsistency error — the counter is never silently clamped. -/
theorem c8_scope_underflow_reported (cfg : Config) (st : CheckSt)
    (rest : List ComplexToken)
    (hg : st.isGlobalScope = false) (hn : st.isInsideNolint = false)
    (hz : st.scopeNesting = 0) (hpeek : isNolintNext rest = false) :
    checkLoop cfg st (ComplexToken.Other (Token.Ctrl rbrace) :: rest)
      = .error scopeUnderflowErrMsg := by
  have hne : (Token.Ctrl rbrace = Token.Ctrl lbrace) = False := by
    simp only [eq_iff_iff, iff_false]
    intro h
    cases h
  simp [checkLoop, hn, hpeek, hg, hne, hz]

/-- Witness for C8 at a concrete reachable state: right after a `Function`
declaration the scope is non-global with counter zero, so a stray `}` is the
reported error. -/
theorem c8_scope_underflow_witness :
    checkLoop defaultConfig
      { isGlobalScope := false, isInsideNolint := false, scopeNesting := 0 }
      [ComplexToken.Other (Token.Ctrl rbrace)] = .error scopeUnderflowErrMsg :=
  c8_scope_underflow_reported defaultConfig _ _ rfl rfl rfl rfl

/-- C10: when the checker processes a comment token starting with
`NOLINTBEGIN` and no later token is a comment starting with `NOLINTEND`,
the check fails with the unmatched-`NOLINTBEGIN` error, whatever the
remaining tokens are (they are all skipped, so no naming/prefix/doc rule can
fire instead). -/
theorem c10_unmatched_nolint_error (cfg : Config) (st : CheckSt) (text : String)
    (rest : List ComplexToken)
    (hb : strStartsWith text ("NOLINTBEGIN") = true)
    (hend : ∀ t ∈ rest, isNolintEndComment t = false) :
    checkLoop cfg st (ComplexToken.Other (Token.Comment text) :: rest)
      = .error nolintEndErrMsg := by
  simp only [checkLoop, hb, if_true]
  exact checkLoop_inside_nolint cfg rest _ rfl hend

/-- Witness for C10: a lone `NOLINTBEGIN` comment makes the whole check fail
with the unmatched-`NOLINTBEGIN` error even though no rule is configured. -/
theorem c10_unmatched_nolint_witness :
    checkLoop defaultConfig
      { isGlobalScope := true, isInsideNolint := false, scopeNesting := 0 }
      [ComplexToken.Other (Token.Comment ("NOLINTBEGIN")),
        ComplexToken.Other (Token.Ident ("x"))] = .error nolintEndErrMsg :=
  c10_unmatched_nolint_error defaultConfig _ _ _ (by decide)
    (by intro t ht; simp at ht; subst ht; rfl)

/-- C5 (amended): an error message returned by `format` begins with the
`changes required` marker if and only if the error is a semantic-rule
violation **or a layout error** — the unmatched-NOFORMAT layout error is
wrapped with the same marker (formatter.rs lines 50-55); lexer and
structural-parser error messages do not carry the marker. -/
theorem c5_error_marker_iff_kind (cfg : Config) (content : String) (e : FmtError)
    (_h : formatE cfg content = .error e) :
    (strStartsWith (renderFmtError e) CHANGES_REQUIRED_ERR_MSG = true
      ↔ isChangesRequiredKind e = true) := by
  cases e with
  | layout m =>
    simp only [renderFmtError, isChangesRequiredKind, String.append_assoc]
    simp [strStartsWith_append]
  | semantic m =>
    simp only [renderFmtError, isChangesRequiredKind, String.append_assoc]
    simp [strStartsWith_append]
  | lexer l c r =>
    simp only [renderFmtError, isChangesRequiredKind, String.append_assoc]
    simp [marker_not_pfx_token]
  | stmt l c r =>
    simp only [renderFmtError, isChangesRequiredKind, String.append_assoc]
    simp [marker_not_pfx_stmt]

/-- Witness for C5 (amended): the unmatched-NOFORMAT input produces a layout
error, and its rendered message carries the marker. -/
theorem c5_error_marker_witness :
    strStartsWith (renderFmtError (.layout noformatErrMsg)) CHANGES_REQUIRED_ERR_MSG = true
      ↔ isChangesRequiredKind (.layout noformatErrMsg) = true :=
  c5_error_marker_iff_kind defaultConfig ("// NOFORMATBEGIN") _ (by decide)

/-- C5 counterexample to the claim as stated: `format` on an unmatched
NOFORMAT begin marker fails with a **layout** error (not a semantic rule
violation), yet the returned message does begin with the `changes required`
marker. -/
theorem c5_layout_error_carries_marker :
    formatE defaultConfig ("// NOFORMATBEGIN") = .error (.layout noformatErrMsg) ∧
    strStartsWith (renderFmtError (.layout noformatErrMsg)) CHANGES_REQUIRED_ERR_MSG = true ∧
    isSemanticKind (.layout noformatErrMsg) = false := by
  refine ⟨by decide, by decide, by decide⟩

/-- C1: formatting is **not** idempotent.  With the default configuration the
accepted input `"a // c\n{\n}"` formats to `"a { // c\n}"` (the open brace is
pulled in front of the trailing line comment), but formatting that output
again moves the comment to its own line, producing a different text — while
the specification requires `format(format(T, C), C) == format(T, C)`. -/
theorem c1_format_not_idempotent :
    formatE defaultConfig ("a // c\n\x7b\n\x7d") = .ok ("a \x7b // c\n\x7d") ∧
    formatE defaultConfig ("a \x7b // c\n\x7d") = .ok ("a \x7b\n    // c\n\x7d") ∧
    ("a \x7b\n    // c\n\x7d" : String) ≠ ("a \x7b // c\n\x7d" : String) := by
  refine ⟨by decide, by decide, by decide⟩

/-- C4: a numeric literal that overflows `i64` does not produce a located
lexer error — the token mapping `value.parse().unwrap()` (parser.rs line 95)
panics, so the whole pipeline crashes instead of returning `Err`. -/
theorem c4_overflow_panics :
    runTokenParser (("99999999999999999999").data)
      = .panic ("called `Result::unwrap()` on an `Err` value: ParseIntError") ∧
    formatE defaultConfig ("99999999999999999999")
      = .panic ("called `Result::unwrap()` on an `Err` value: ParseIntError") := by
  refine ⟨by decide, by decide⟩

/-- C3 counterexample to the claim as stated: in `5.x` the digit run is
followed by a `.` that is **not** followed by digits, yet the lexer produces a
single `Float` token `5.` (consuming the dot) — not an `Integer` token with
the dot left over as a control token. -/
theorem c3_trailing_dot_is_float :
    runTokenParser (("5.x").data)
      = .ok [(Token.Float ("5."), 0, 2), (Token.Ident ("x"), 2, 3)] ∧
    runTokenParser (("5.x").data)
      ≠ .ok [(Token.Integer 5, 0, 1), (Token.Ctrl '.', 1, 2), (Token.Ident ("x"), 2, 3)] := by
  refine ⟨by decide, by decide⟩

/-- C7 counterexample to the claim as stated: for `a_B_C` with target case
Camel the checker suggests `aBC`, but that suggestion is itself rejected by
the same checker (its conversion is `aBc`), so the suggested correction is
not always in the target case. -/
theorem c7_suggestion_not_fixed_point :
    checkNameCase ("a_B_C") Case.Camel
      = .error ("\"a_B_C\" has incorrect case, the correct case is \"aBC\"") ∧
    toCaseConv Case.Camel ("aBC") = ("aBc") ∧
    checkNameCase ("aBC") Case.Camel
      = .error ("\"aBC\" has incorrect case, the correct case is \"aBc\"") := by
  refine ⟨rfl, by decide, rfl⟩

/-- C7 (amended): the checker accepts exactly the identifiers that are fixed
points of the case conversion (so a name already in the target case is
accepted unchanged, and the error's suggestion is always the converted
name — which need not itself be a fixed point); and with variable case Camel
and no global-prefix rule, the global declaration `My_Var` is rejected with
the suggestion `myVar`. -/
theorem c7_case_check_fixed_point :
    (∀ (name : String) (c : Case),
      checkNameCase name c = .ok () ↔ toCaseConv c name = name) ∧
    checkVariableName { defaultConfig with variableCase := some Case.Camel }
        ("My_Var") Ty.Integer true
      = .error ("\"My_Var\" has incorrect case, the correct case is \"myVar\"") := by
  constructor
  · intro name c
    unfold checkNameCase isCaseDifferent
    by_cases h : name = toCaseConv c name
    · simp [← h]
    · simp [h, Ne.symm h]
  · rfl


/-- The two argument/docs cross checks succeed exactly when every
non-semantic argument is documented and every documented name exists. -/
theorem checkFunctionDocsArgs_ok_iff (info : FunctionInfo) :
    checkFunctionDocsArgs info = .ok () ↔
      ((∀ a ∈ info.args, a.isUsingSemantic = false →
          a.name ∈ documentedArgs info.docs) ∧
        (∀ d ∈ documentedArgs info.docs, ∃ a ∈ info.args, a.name = d)) := by
  unfold checkFunctionDocsArgs
  rcases h1 : info.args.find?
      (fun a => !a.isUsingSemantic && !((documentedArgs info.docs).contains a.name))
    with _ | a
  · rcases h2 : (documentedArgs info.docs).find?
        (fun d => !(info.args.any (fun a => a.name == d))) with _ | d
    · simp only [h1, h2]
      rw [List.find?_eq_none] at h1 h2
      refine iff_of_true trivial ⟨?_, ?_⟩
      · intro a ha hsem
        have h := h1 a ha
        rw [Bool.and_eq_true, Bool.not_eq_true', Bool.not_eq_true'] at h
        rw [not_and] at h
        have hc := h hsem
        have hct : (documentedArgs info.docs).contains a.name = true := by
          cases hcc : (documentedArgs info.docs).contains a.name
          · exact absurd hcc hc
          · rfl
        exact List.elem_iff.mp hct
      · intro d hd
        have h := h2 d hd
        rw [Bool.not_eq_true'] at h
        have hct : info.args.any (fun a => a.name == d) = true := by
          cases hcc : info.args.any (fun a => a.name == d)
          · exact absurd hcc h
          · rfl
        obtain ⟨a, ha, he⟩ := List.any_eq_true.mp hct
        exact ⟨a, ha, by simpa using he⟩
    · simp only [h1, h2]
      have hp := List.find?_some h2
      have hm := List.mem_of_find?_eq_some h2
      rw [Bool.not_eq_true'] at hp
      refine iff_of_false (by intro h; cases h) ?_
      intro hr
      obtain ⟨a, ha, he⟩ := hr.2 d hm
      have hct : info.args.any (fun x => x.name == d) = true :=
        List.any_eq_true.mpr ⟨a, ha, by simpa using he⟩
      rw [hp] at hct
      cases hct
  · simp only [h1]
    have hp := List.find?_some h1
    have hm := List.mem_of_find?_eq_some h1
    rw [Bool.and_eq_true, Bool.not_eq_true', Bool.not_eq_true'] at hp
    refine iff_of_false (by intro h; cases h) ?_
    intro hr
    have hmem := hr.1 a hm hp.1
    have hct : (documentedArgs info.docs).contains a.name = true :=
      List.elem_iff.mpr hmem
    rw [hp.2] at hct
    cases hct

/-- C6: with the docs-on-functions rule enabled, `check_function_docs`
succeeds exactly when the docs are non-empty and ASCII, a `@return` tag is
present iff the return type is not Void (so a `@return` on a Void function is
an error), every declared argument not using an HLSL semantic appears among
the `@param <name>` tags, and every `@param <name>` tag names a declared
argument. -/
theorem c6_function_docs_iff (info : FunctionInfo) :
    checkFunctionDocs info = .ok () ↔ FunctionDocsSpec info := by
  unfold checkFunctionDocs FunctionDocsSpec
  by_cases hempty : info.docs = ("")
  · simp [hempty]
  · by_cases hascii : isAsciiStr info.docs = true
    · by_cases hfound : hasSubstr (("@return").data) info.docs.data = true
      · by_cases hvoid : info.returnType = Ty.Void
        · simp [hempty, hascii, hfound, hvoid]
        · simp [hempty, hascii, hfound, hvoid, checkFunctionDocsArgs_ok_iff]
      · have hfound' := Bool.of_not_eq_true hfound
        by_cases hvoid : info.returnType = Ty.Void
        · simp [hempty, hascii, hfound', hvoid, checkFunctionDocsArgs_ok_iff]
        · simp [hempty, hascii, hfound', hvoid]
    · have hascii' := Bool.of_not_eq_true hascii
      simp [hempty, hascii']

/-- A decimal digit is not a minus sign. -/
theorem digit_ne_minus (c : Char) (h : isDigit10 c = true) : c ≠ '-' := by
  intro hc
  subst hc
  exact absurd h (by decide)

/-- A valid `text::int` slice starts with a digit. -/
theorem isIntSlice_head (ds : List Char) (h : isIntSlice ds = true) :
    ∃ c t, ds = c :: t ∧ isDigit10 c = true := by
  cases ds with
  | nil => cases h
  | cons c t =>
    refine ⟨c, t, rfl, ?_⟩
    unfold isIntSlice at h
    rw [Bool.or_eq_true] at h
    rcases h with h | h
    · rw [Bool.and_eq_true, Bool.and_eq_true] at h
      exact h.1.1
    · rw [beq_iff_eq] at h
      cases h
      decide

/-- `minusSplit` keeps a non-minus-led input intact. -/
theorem minusSplit_cons_ne (c : Char) (t : List Char) (h : c ≠ '-') :
    minusSplit (c :: t) = ([], c :: t) := by
  unfold minusSplit
  split
  · rename_i heq
    injection heq with h1 _
    exact absurd h1 h
  · rfl

/-- `dropWhile` is the identity when the head does not satisfy the test. -/
theorem dropWhile_of_head_false (p : Char → Bool) (l : List Char)
    (h : ∀ c, l.head? = some c → p c = false) : l.dropWhile p = l := by
  cases l with
  | nil => rfl
  | cons c t => simp [List.dropWhile_cons, h c rfl]

/-- `text::int` consumes exactly a valid int slice when what follows is not a
digit. -/
theorem textInt_exact (ds rest : List Char) (hds : isIntSlice ds = true)
    (hrd : ∀ c, rest.head? = some c → isDigit10 c = false) :
    textInt (ds ++ rest) = .ok ds rest := by
  unfold isIntSlice at hds
  cases ds with
  | nil => cases hds
  | cons c t =>
    rw [Bool.or_eq_true] at hds
    unfold textInt
    rcases hds with h | h
    · rw [Bool.and_eq_true, Bool.and_eq_true] at h
      obtain ⟨⟨hc, hne⟩, ht⟩ := h
      simp only [List.cons_append]
      rw [if_pos (by rw [hc, hne]; rfl)]
      rw [takeWhile_all_append isDigit10 t rest ht hrd,
        dropWhile_all_append isDigit10 t rest ht hrd]
    · rw [beq_iff_eq] at h
      injection h with h1 h2
      subst h1
      subst h2
      simp

/-- The float grammar consumes `-?<int>.<digits>` exactly, producing the
slice as the token. -/
theorem floatCore_exact (m ds fs rest : List Char)
    (hm : m = [] ∨ m = [ '-']) (hds : isIntSlice ds = true)
    (hfs : fs.all isDigit10 = true)
    (hrd : ∀ c, rest.head? = some c → isDigit10 c = false) :
    floatCore (m ++ ds ++ '.' :: fs ++ rest)
      = .ok (Token.Float (String.mk (m ++ ds ++ '.' :: fs))) rest := by
  obtain ⟨c, t, hdst, hcd⟩ := isIntSlice_head ds hds
  have hdot : ∀ d, ('.' :: fs ++ rest).head? = some d → isDigit10 d = false := by
    intro d hd
    injection hd with hd
    subst hd
    decide
  have hsplit : minusSplit (m ++ ds ++ '.' :: fs ++ rest)
      = (m, ds ++ '.' :: fs ++ rest) := by
    rcases hm with hm | hm <;> subst hm
    · subst hdst
      simp only [List.nil_append, List.cons_append]
      exact minusSplit_cons_ne c (t ++ '.' :: fs ++ rest) (digit_ne_minus c hcd)
    · rfl
  unfold floatCore
  rw [hsplit]
  simp only []
  rw [show ds ++ '.' :: fs ++ rest = ds ++ ('.' :: fs ++ rest) by simp]
  rw [textInt_exact ds ('.' :: fs ++ rest) hds hdot]
  simp only [List.cons_append]
  rw [takeWhile_all_append isDigit10 fs rest hfs hrd,
    dropWhile_all_append isDigit10 fs rest hfs hrd]

/-- The float grammar fails when the int slice is not followed by a dot. -/
theorem floatCore_fail (m ds rest : List Char)
    (hm : m = [] ∨ m = [ '-']) (hds : isIntSlice ds = true)
    (hrd : ∀ c, rest.head? = some c → isDigit10 c = false)
    (hrdot : rest.head? ≠ some '.') :
    floatCore (m ++ ds ++ rest) = .fail := by
  obtain ⟨c, t, hdst, hcd⟩ := isIntSlice_head ds hds
  have hsplit : minusSplit (m ++ ds ++ rest) = (m, ds ++ rest) := by
    rcases hm with hm | hm <;> subst hm
    · subst hdst
      simp only [List.nil_append, List.cons_append]
      exact minusSplit_cons_ne c (t ++ rest) (digit_ne_minus c hcd)
    · rfl
  unfold floatCore
  rw [hsplit]
  simp only []
  rw [textInt_exact ds rest hds hrd]
  cases rest with
  | nil => rfl
  | cons r rs =>
    cases hr : decide (r = '.') with
    | true =>
      rw [decide_eq_true_eq] at hr
      subst hr
      exact absurd rfl hrdot
    | false =>
      rw [decide_eq_false_iff_not] at hr
      simp only []
      split
      · rename_i heq
        injection heq with h1 _
        exact absurd h1 hr
      · rfl

/-- The integer grammar consumes `-?<int>` exactly when not followed by a
dot, producing the parsed `i64` value. -/
theorem integerCore_exact (m ds rest : List Char) (v : Int)
    (hm : m = [] ∨ m = [ '-']) (hds : isIntSlice ds = true)
    (hrd : ∀ c, rest.head? = some c → isDigit10 c = false)
    (hrdot : rest.head? ≠ some '.')
    (hv : parseI64 (m ++ ds) = some v) :
    integerCore (m ++ ds ++ rest) = .ok (Token.Integer v) rest := by
  obtain ⟨c, t, hdst, hcd⟩ := isIntSlice_head ds hds
  have hsplit : minusSplit (m ++ ds ++ rest) = (m, ds ++ rest) := by
    rcases hm with hm | hm <;> subst hm
    · subst hdst
      simp only [List.nil_append, List.cons_append]
      exact minusSplit_cons_ne c (t ++ rest) (digit_ne_minus c hcd)
    · rfl
  unfold integerCore
  rw [hsplit]
  simp only []
  rw [textInt_exact ds rest hds hrd]
  have hstep :
      (match rest with
        | '.' :: _ => (POut.fail : POut Char Token)
        | _ =>
          match parseI64 (m ++ ds) with
          | some v => .ok (Token.Integer v) rest
          | none => .panic ("called `Result::unwrap()` on an `Err` value: ParseIntError"))
      = .ok (Token.Integer v) rest := by
    cases rest with
    | nil => rw [hv]
    | cons r rs =>
      cases hr : decide (r = '.') with
      | true =>
        rw [decide_eq_true_eq] at hr
        subst hr
        exact absurd rfl hrdot
      | false =>
        rw [decide_eq_false_iff_not] at hr
        split
        · rename_i heq
          injection heq with h1 _
          exact absurd h1 hr
        · rw [hv]
  exact hstep

/-- `.padded()` is inert around a success whose input and leftover both start
with non-whitespace. -/
theorem padP_ok {α : Type} (p : P Char α) (s : List Char) (v : α) (r : List Char)
    (hs : ∀ c, s.head? = some c → isWsChar c = false)
    (h : p s = .ok v r)
    (hr : ∀ c, r.head? = some c → isWsChar c = false) :
    padP p s = .ok v r := by
  unfold padP
  rw [dropWhile_of_head_false isWsChar s hs, h]
  show POut.ok v (r.dropWhile isWsChar) = POut.ok v r
  rw [dropWhile_of_head_false isWsChar r hr]

/-- `.padded()` is inert around a failure on non-whitespace-led input. -/
theorem padP_fail {α : Type} (p : P Char α) (s : List Char)
    (hs : ∀ c, s.head? = some c → isWsChar c = false)
    (h : p s = .fail) :
    padP p s = .fail := by
  unfold padP
  rw [dropWhile_of_head_false isWsChar s hs, h]

/-- The head of `m ++ ds ++ anything` is a minus sign or a digit, hence not
whitespace. -/
theorem numberHead_not_ws (m ds rest : List Char)
    (hm : m = [] ∨ m = [ '-']) (hds : isIntSlice ds = true) :
    ∀ c, (m ++ ds ++ rest).head? = some c → isWsChar c = false := by
  obtain ⟨c₀, t, hdst, hcd⟩ := isIntSlice_head ds hds
  intro c hc
  rcases hm with hm | hm <;> subst hm <;> subst hdst
  · simp only [List.nil_append, List.cons_append, List.head?_cons] at hc
    injection hc with hc
    rw [← hc]
    exact digit_not_ws c₀ hcd
  · simp only [List.cons_append, List.head?_cons] at hc
    injection hc with hc
    rw [← hc]
    decide

/-- C3 (amended): at any token boundary, an optional `-` and a `text::int`
digit run (a single `0` or a nonzero-led run) followed by `.` is lexed as a
single `Float` token that consumes the `.` together with any immediately
following digits (which may be absent); a digit run **not** followed by `.`
is lexed as an `Integer` token.  (A trailing `.` is thus consumed as part of
a `Float`, not left over as a control token.) -/
theorem c3_number_lexing :
    (∀ (m ds fs rest : List Char), (m = [] ∨ m = [ '-']) →
      isIntSlice ds = true → fs.all isDigit10 = true →
      (∀ c, rest.head? = some c → isDigit10 c = false ∧ isWsChar c = false) →
      tokenP (m ++ ds ++ '.' :: fs ++ rest)
        = .ok (Token.Float (String.mk (m ++ ds ++ '.' :: fs))) rest) ∧
    (∀ (m ds rest : List Char) (v : Int), (m = [] ∨ m = [ '-']) →
      isIntSlice ds = true →
      (∀ c, rest.head? = some c →
        isDigit10 c = false ∧ isWsChar c = false ∧ c ≠ '.') →
      parseI64 (m ++ ds) = some v →
      tokenP (m ++ ds ++ rest) = .ok (Token.Integer v) rest) := by
  constructor
  · intro m ds fs rest hm hds hfs hrest
    have hrd : ∀ c, rest.head? = some c → isDigit10 c = false :=
      fun c hc => (hrest c hc).1
    have hrw : ∀ c, rest.head? = some c → isWsChar c = false :=
      fun c hc => (hrest c hc).2
    have hs : ∀ c, (m ++ ds ++ '.' :: fs ++ rest).head? = some c →
        isWsChar c = false := by
      intro c hc
      rw [List.append_assoc (m ++ ds) ('.' :: fs) rest] at hc
      exact numberHead_not_ws m ds (('.' :: fs) ++ rest) hm hds c hc
    have hfl : floatP (m ++ ds ++ '.' :: fs ++ rest)
        = .ok (Token.Float (String.mk (m ++ ds ++ '.' :: fs))) rest :=
      padP_ok floatCore _ _ _ hs
        (floatCore_exact m ds fs rest hm hds hfs hrd) hrw
    unfold tokenP
    exact pOrElse_ok _ _ _ _ _ hfl
  · intro m ds rest v hm hds hrest hv
    have hrd : ∀ c, rest.head? = some c → isDigit10 c = false :=
      fun c hc => (hrest c hc).1
    have hrw : ∀ c, rest.head? = some c → isWsChar c = false :=
      fun c hc => (hrest c hc).2.1
    have hrdot : rest.head? ≠ some '.' := by
      intro hc
      exact absurd rfl (hrest '.' hc).2.2
    have hhead := numberHead_not_ws m ds rest hm hds
    have hff : floatP (m ++ ds ++ rest) = .fail :=
      padP_fail floatCore _ hhead (floatCore_fail m ds rest hm hds hrd hrdot)
    have hint : integerP (m ++ ds ++ rest) = .ok (Token.Integer v) rest :=
      padP_ok integerCore _ _ _ hhead
        (integerCore_exact m ds rest v hm hds hrd hrdot hv) hrw
    unfold tokenP
    rw [pOrElse_fail _ _ _ hff]
    exact pOrElse_ok _ _ _ _ _ hint

/-- Witness for C3 (amended): `-12.5x` lexes as the float `-12.5` leaving
`x`, and `42;` lexes as the integer `42` leaving `;`. -/
theorem c3_number_lexing_witness :
    tokenP (("-12.5x").data) = .ok (Token.Float ("-12.5")) (("x").data) ∧
    tokenP (("42;").data) = .ok (Token.Integer 42) ((";").data) := by
  constructor
  · have h := c3_number_lexing.1 [ '-'] [ '1', '2'] [ '5'] [ 'x']
      (Or.inr rfl) (by decide) (by decide)
      (by
        intro c hc
        injection hc with hc
        rw [← hc]
        exact ⟨by decide, by decide⟩)
    exact h
  · have h := c3_number_lexing.2 [] [ '4', '2'] [ ';'] 42
      (Or.inl rfl) (by decide)
      (by
        intro c hc
        injection hc with hc
        rw [← hc]
        exact ⟨by decide, by decide, by decide⟩)
      (by decide)
    exact h

/-! ### Newline-run groundwork for C2 -/

/-- `nlStats` splits along appends. -/
theorem nlStats_append (a b : List Char) :
    nlStats (a ++ b) = b.foldl nlStep (nlStats a) := by
  unfold nlStats
  rw [List.foldl_append]

/-- The longest-run component never decreases along the scan. -/
theorem foldl_nlStep_fst_le (b : List Char) :
    ∀ p : Nat × Nat, p.1 ≤ (b.foldl nlStep p).1 := by
  induction b with
  | nil => intro p; exact le_refl _
  | cons c t ih =>
    intro p
    refine le_trans ?_ (ih (nlStep p c))
    unfold nlStep
    split
    · exact le_max_left _ _
    · exact le_refl _

/-- Scanning a non-empty block of non-newline characters resets the trailing
run and keeps the longest run. -/
theorem foldl_nlStep_nonNl (w : List Char) (hw : ∀ c ∈ w, c ≠ '\n') :
    ∀ p : Nat × Nat, w ≠ [] → w.foldl nlStep p = (p.1, 0) := by
  induction w with
  | nil => intro p h; exact absurd rfl h
  | cons c t ih =>
    intro p _
    have hc : c ≠ '\n' := hw c (List.mem_cons_self _ _)
    have hstep : nlStep p c = (p.1, 0) := by unfold nlStep; rw [if_neg hc]
    rw [List.foldl_cons, hstep]
    cases ht : t with
    | nil => rfl
    | cons d u =>
      rw [← ht]
      exact ih (fun x hx => hw x (List.mem_cons_of_mem _ hx)) (p.1, 0)
        (by rw [ht]; exact List.cons_ne_nil _ _)

/-- Appending a non-empty non-newline block: same longest run, no trailing
run. -/
theorem nlStats_append_nonNl (a w : List Char) (hw : ∀ c ∈ w, c ≠ '\n')
    (hne : w ≠ []) : nlStats (a ++ w) = ((nlStats a).1, 0) := by
  rw [nlStats_append]
  exact foldl_nlStep_nonNl w hw _ hne

/-- Appending one line ending extends the trailing run by one. -/
theorem nlStats_append_nl (a : List Char) :
    nlStats (a ++ LINE_ENDING)
      = (max (nlStats a).1 ((nlStats a).2 + 1), (nlStats a).2 + 1) := by
  rw [nlStats_append]
  rfl

/-- The longest run of a prefix is bounded by the whole. -/
theorem maxRun_prefix_le (l t : List Char) :
    maxNewlineRun l ≤ maxNewlineRun (l ++ t) := by
  unfold maxNewlineRun
  rw [nlStats_append]
  exact foldl_nlStep_fst_le t (nlStats l)

/-- `take` only shrinks the longest run. -/
theorem maxRun_take (l : List Char) (k : Nat) :
    maxNewlineRun (l.take k) ≤ maxNewlineRun l := by
  conv_rhs => rw [← List.take_append_drop k l]
  exact maxRun_prefix_le _ _

/-- `popN` only shrinks the longest run. -/
theorem maxRun_popN (l : List Char) (k : Nat) :
    maxNewlineRun (popN l k) ≤ maxNewlineRun l :=
  maxRun_take l _

/-- `dropTrailingWhile` only shrinks the longest run. -/
theorem maxRun_dropTrailingWhile (p : Char → Bool) (l : List Char) :
    maxNewlineRun (dropTrailingWhile p l) ≤ maxNewlineRun l := by
  unfold dropTrailingWhile
  obtain ⟨s, hs⟩ := List.dropWhile_suffix (l := l.reverse) p
  have : l = (l.reverse.dropWhile p).reverse ++ s.reverse := by
    conv_lhs => rw [← List.reverse_reverse l, ← hs]
    rw [List.reverse_append]
  conv_rhs => rw [this]
  exact maxRun_prefix_le _ _

/-- The head of a `dropWhile` result does not satisfy the test. -/
theorem head_dropWhile_false (p : Char → Bool) (l : List Char) :
    ∀ c, (l.dropWhile p).head? = some c → p c = false := by
  induction l with
  | nil => intro c h; cases h
  | cons d t ih =>
    intro c h
    rw [List.dropWhile_cons] at h
    split at h
    · exact ih c h
    · rename_i hd
      injection h with h
      rw [← h]
      exact Bool.of_not_eq_true hd

/-- A text whose last character is not a newline has no trailing run. -/
theorem trailRun_zero_of_last (l : List Char)
    (h : ∀ c, l.getLast? = some c → c ≠ '\n') : trailNewlineRun l = 0 := by
  induction l using List.reverseRecOn with
  | nil => rfl
  | append_singleton a c _ =>
    have hc : c ≠ '\n' := h c (by rw [List.getLast?_concat])
    unfold trailNewlineRun
    rw [show a ++ [c] = a ++ [c] from rfl,
      nlStats_append_nonNl a [c]
        (by intro x hx; rw [List.mem_singleton] at hx; rw [hx]; exact hc)
        (List.cons_ne_nil _ _)]

/-- Dropping trailing whitespace (which includes newlines) leaves no trailing
newline run. -/
theorem trailRun_dropTrailingWhile_ws (l : List Char) :
    trailNewlineRun (dropTrailingWhile isWsAll l) = 0 := by
  apply trailRun_zero_of_last
  intro c hc
  unfold dropTrailingWhile at hc
  rw [List.getLast?_reverse] at hc
  have := head_dropWhile_false isWsAll l.reverse c hc
  intro heq
  rw [heq] at this
  cases this

/-- Appending non-newline material does not change the longest run. -/
theorem maxRun_append_nonNl (a w : List Char) (hw : ∀ c ∈ w, c ≠ '\n') :
    maxNewlineRun (a ++ w) = maxNewlineRun a := by
  cases hne : w with
  | nil => rw [List.append_nil]
  | cons d u =>
    rw [← hne]
    unfold maxNewlineRun
    rw [nlStats_append_nonNl a w hw (by rw [hne]; exact List.cons_ne_nil _ _)]

/-- Appending non-newline material does not grow the trailing run. -/
theorem trailRun_append_nonNl_le (a w : List Char) (hw : ∀ c ∈ w, c ≠ '\n') :
    trailNewlineRun (a ++ w) ≤ trailNewlineRun a := by
  cases hne : w with
  | nil => rw [List.append_nil]
  | cons d u =>
    rw [← hne]
    unfold trailNewlineRun
    rw [nlStats_append_nonNl a w hw (by rw [hne]; exact List.cons_ne_nil _ _)]
    exact Nat.zero_le _

/-- Appending a non-empty non-newline block leaves no trailing run. -/
theorem trailRun_append_nonNl_ne (a w : List Char) (hw : ∀ c ∈ w, c ≠ '\n')
    (hne : w ≠ []) : trailNewlineRun (a ++ w) = 0 := by
  unfold trailNewlineRun
  rw [nlStats_append_nonNl a w hw hne]

/-- Longest run after appending one line ending. -/
theorem maxRun_append_nl (a : List Char) :
    maxNewlineRun (a ++ LINE_ENDING)
      = max (maxNewlineRun a) (trailNewlineRun a + 1) := by
  unfold maxNewlineRun trailNewlineRun
  rw [nlStats_append_nl]

/-- Trailing run after appending one line ending. -/
theorem trailRun_append_nl (a : List Char) :
    trailNewlineRun (a ++ LINE_ENDING) = trailNewlineRun a + 1 := by
  unfold trailNewlineRun
  rw [nlStats_append_nl]

/-- The indentation unit contains no newline. -/
theorem indentText_no_nl (cfg : Config) : ∀ c ∈ indentText cfg, c ≠ '\n' := by
  intro c hc heq
  subst heq
  unfold indentText at hc
  rcases h : cfg.indentation <;> rw [h] at hc <;> revert hc <;> decide

/-- Repeated indentation contains no newline. -/
theorem indentRep_no_nl (cfg : Config) (k : Nat) :
    ∀ c ∈ indentRep cfg k, c ≠ '\n' := by
  intro c hc
  unfold indentRep at hc
  rw [List.mem_flatten] at hc
  obtain ⟨w, hw, hcw⟩ := hc
  rw [List.mem_replicate] at hw
  rw [hw.2] at hcw
  exact indentText_no_nl cfg c hcw

/-- The newline branch preserves the blank-line invariant: an emission is
gated by `consecutive_empty_new_line_count <= max_empty_lines`, extends the
trailing run by at most one, and bumps the counter. -/
theorem newlineCharStep_inv (cfg : Config) (st : FmtSt)
    (h : FmtInv cfg.maxEmptyLines st) :
    FmtInv cfg.maxEmptyLines (newlineCharStep cfg st) := by
  obtain ⟨h1, h2⟩ := h
  unfold newlineCharStep
  dsimp only
  by_cases hp : st.preprocNestNext = true
  all_goals
    first
      | rw [if_pos hp]
      | rw [if_neg hp]
  all_goals dsimp only
  all_goals
    by_cases hc : ((!st.ignoreUntilText || st.stopIgnoringIfEol)
        && decide (st.consecEmpty ≤ cfg.maxEmptyLines)) = true
  all_goals
    first
      | rw [if_pos hc]
      | rw [if_neg hc]
  all_goals unfold FmtInv
  all_goals dsimp only
  all_goals
    first
      | exact ⟨h1, h2⟩
      | (rw [Bool.and_eq_true, decide_eq_true_eq] at hc
         constructor
         · show maxNewlineRun ((st.out ++ LINE_ENDING) ++ indentRep cfg _) ≤ _
           rw [maxRun_append_nonNl _ _ (indentRep_no_nl cfg _), maxRun_append_nl]
           exact max_le h1 (Nat.add_le_add_right (le_trans h2 hc.2) 1)
         · show trailNewlineRun ((st.out ++ LINE_ENDING) ++ indentRep cfg _) ≤ _
           refine le_trans (trailRun_append_nonNl_le _ _ (indentRep_no_nl cfg _)) ?_
           rw [trailRun_append_nl]
           exact Nat.add_le_add_right h2 1)

/-- A `stop` result of the line-start block only touches comment/backslash
flags: output and blank-line counter are unchanged. -/
theorem lineStartStep_stop_eq (cfg : Config) (st : FmtSt) (ch : Char)
    (st' : FmtSt) (h : lineStartStep cfg st ch = .stop st') :
    st'.out = st.out ∧ st'.consecEmpty = st.consecEmpty := by
  unfold lineStartStep at h
  split at h
  · split at h
    · cases h
    · injection h with h
      subst h
      exact ⟨rfl, rfl⟩
  · cases h

/-- A `go` result of the line-start block only pops whitespace or appends
non-newline indentation/space, so it cannot grow the longest newline run. -/
theorem lineStartStep_go_maxRun (cfg : Config) (st : FmtSt) (ch : Char)
    (st' : FmtSt) (h : lineStartStep cfg st ch = .go st') :
    maxNewlineRun st'.out ≤ maxNewlineRun st.out := by
  have hsp : ∀ c ∈ ([ ' '] : List Char), c ≠ '\n' := by decide
  unfold lineStartStep at h
  split at h
  · split at h
    · injection h with h
      subst h
      dsimp only
      repeat' split
      all_goals dsimp only
      all_goals
        first
          | exact le_refl _
          | exact maxRun_dropTrailingWhile _ _
          | (rw [maxRun_append_nonNl _ _ hsp]
             try first
               | exact le_refl _
               | exact maxRun_dropTrailingWhile _ _
               | rw [maxRun_append_nonNl _ _ (indentText_no_nl cfg)])
          | rw [maxRun_append_nonNl _ _ (indentText_no_nl cfg)]
    · cases h
  · injection h with h
    subst h
    exact le_refl _

/-- A `stop` of the ignore block returns the state unchanged. -/
theorem ignoreStep_stop_eq (st : FmtSt) (ch : Char) (st' : FmtSt)
    (h : ignoreStep st ch = .stop st') : st' = st := by
  unfold ignoreStep at h
  split at h
  · split at h
    · cases h
    · injection h with h
      exact h.symm
  · cases h

/-- A `go` of the ignore block only clears flags. -/
theorem ignoreStep_go_eq (st : FmtSt) (ch : Char) (st' : FmtSt)
    (h : ignoreStep st ch = .go st') :
    st'.out = st.out ∧ st'.consecEmpty = st.consecEmpty := by
  unfold ignoreStep at h
  split at h
  · split at h
    · injection h with h
      subst h
      exact ⟨rfl, rfl⟩
    · cases h
  · injection h with h
    subst h
    exact ⟨rfl, rfl⟩


/-- Depth tracking does not touch the output or blank-line counter. -/
theorem detectCComment_eq (st : FmtSt) (ch : Char) :
    (detectCComment st ch).out = st.out ∧
      (detectCComment st ch).consecEmpty = st.consecEmpty := by
  unfold detectCComment
  repeat' split
  all_goals exact ⟨rfl, rfl⟩

/-- The preprocessor handling only pops whitespace and re-appends indentation
plus the three copied non-newline characters, so the longest run cannot
grow; the blank-line counter is untouched. -/
theorem detectPreproc_maxRun (cfg : Config) (st : FmtSt) (ch : Char) :
    maxNewlineRun (detectPreproc cfg st ch).out ≤ maxNewlineRun st.out ∧
      (detectPreproc cfg st ch).consecEmpty = st.consecEmpty := by
  unfold detectPreproc
  repeat' split
  all_goals try dsimp only
  all_goals refine ⟨?_, rfl⟩
  all_goals
    first
      | exact le_refl _
      | (have hg : ((decide (st.l3a = '#') && decide (st.l3b = 'e'))
            && (decide (st.l3c = 'n') && decide (ch = 'd')
              || decide (st.l3c = 'l') && decide (ch = 'i')
              || decide (st.l3c = 'l') && decide (ch = 's'))) = true := by
           assumption
         rw [Bool.and_eq_true] at hg
         obtain ⟨hab, hdisj⟩ := hg
         rw [Bool.and_eq_true] at hab
         obtain ⟨ha, hb⟩ := hab
         rw [decide_eq_true_eq] at ha hb
         have h3 : ∀ c ∈ [st.l3a, st.l3b, st.l3c], c ≠ '\n' := by
           intro c hc
           rw [Bool.or_eq_true, Bool.or_eq_true] at hdisj
           have hcone : st.l3c ≠ '\n' := by
             rcases hdisj with (hx | hx) | hx <;>
               (rw [Bool.and_eq_true] at hx
                obtain ⟨hx1, _⟩ := hx
                rw [decide_eq_true_eq] at hx1
                rw [hx1]
                decide)
           simp only [List.mem_cons, List.not_mem_nil] at hc
           rcases hc with hc | hc | hc | hc
           · rw [hc, ha]; decide
           · rw [hc, hb]; decide
           · rw [hc]; exact hcone
           · cases hc
         calc maxNewlineRun (popN st.out (preprocDedentCount st.out)
                ++ indentRep cfg (st.nesting - 1) ++ [st.l3a, st.l3b, st.l3c])
             = maxNewlineRun (popN st.out (preprocDedentCount st.out)
                ++ indentRep cfg (st.nesting - 1)) := by
               rw [maxRun_append_nonNl _ _ h3]
           _ = maxNewlineRun (popN st.out (preprocDedentCount st.out)) := by
               rw [maxRun_append_nonNl _ _ (indentRep_no_nl cfg _)]
           _ ≤ maxNewlineRun st.out := maxRun_popN _ _)

/-- Line-comment detection does not touch the output or counter. -/
theorem detectLineComment_eq (st : FmtSt) :
    (detectLineComment st).out = st.out ∧
      (detectLineComment st).consecEmpty = st.consecEmpty := by
  unfold detectLineComment
  split
  all_goals exact ⟨rfl, rfl⟩

/-- The whole detection block cannot grow the longest newline run and leaves
the counter unchanged. -/
theorem detectStep_maxRun (cfg : Config) (st : FmtSt) (ch : Char) :
    maxNewlineRun (detectStep cfg st ch).out ≤ maxNewlineRun st.out ∧
      (detectStep cfg st ch).consecEmpty = st.consecEmpty := by
  unfold detectStep
  obtain ⟨e1, e2⟩ := detectLineComment_eq (detectPreproc cfg (detectCComment st ch) ch)
  obtain ⟨p1, p2⟩ := detectPreproc_maxRun cfg (detectCComment st ch) ch
  obtain ⟨c1, c2⟩ := detectCComment_eq st ch
  constructor
  · rw [e1]
    refine le_trans p1 ?_
    rw [c1]
  · rw [e2, p2, c2]

/-- Copying a (non-newline) character into a comment appends exactly that
character: longest run preserved, no trailing run, counter untouched. -/
theorem commentCopyStep_out (st : FmtSt) (ch : Char) (hch : ch ≠ '\n') :
    maxNewlineRun (commentCopyStep st ch).out = maxNewlineRun st.out ∧
      trailNewlineRun (commentCopyStep st ch).out = 0 ∧
      (commentCopyStep st ch).consecEmpty = st.consecEmpty := by
  have hw : ∀ c ∈ [ch], c ≠ '\n' := by
    intro c hc
    rw [List.mem_singleton] at hc
    rw [hc]
    exact hch
  unfold commentCopyStep
  dsimp only
  repeat' split
  all_goals
    exact ⟨maxRun_append_nonNl _ _ hw,
      trailRun_append_nonNl_ne _ _ hw (List.cons_ne_nil _ _), rfl⟩

/-- The previous-line scan of the `{` handler: it only pops characters and
appends non-newline characters (the scanned line contains no newline), so
the longest run cannot grow, and once a comment has been found the output
ends in a non-newline character. -/
theorem braceScan_out (lineLen : Nat) (chars : List Char)
    (hchars : ∀ c ∈ chars, c ≠ '\n') :
    ∀ st : BraceScanSt, ∀ B, maxNewlineRun st.out ≤ B →
      (st.found = true → trailNewlineRun st.out = 0) →
      maxNewlineRun (braceScan lineLen st chars).out ≤ B ∧
        ((braceScan lineLen st chars).found = true →
          trailNewlineRun (braceScan lineLen st chars).out = 0) := by
  induction chars with
  | nil =>
    intro st B h1 h2
    exact ⟨h1, h2⟩
  | cons c rest ih =>
    intro st B h1 h2
    have hc : c ≠ '\n' := hchars c (List.mem_cons_self _ _)
    have hrest : ∀ x ∈ rest, x ≠ '\n' :=
      fun x hx => hchars x (List.mem_cons_of_mem _ hx)
    have hw : ∀ x ∈ [c], x ≠ '\n' := by
      intro x hx
      rw [List.mem_singleton] at hx
      rw [hx]
      exact hc
    have hw4 : ∀ x ∈ [ ' ', lbrace, ' ', '/'], x ≠ '\n' := by decide
    simp only [braceScan]
    refine ih hrest _ B ?_ ?_
    · dsimp only
      repeat' split
      all_goals try dsimp only
      all_goals
        first
          | exact h1
          | (rw [maxRun_append_nonNl _ _ hw]; exact h1)
          | (rw [maxRun_append_nonNl _ _ hw4]
             refine le_trans (maxRun_popN _ _) ?_
             try rw [maxRun_append_nonNl _ _ hw]
             exact h1)
    · dsimp only
      repeat' split
      all_goals try dsimp only
      all_goals intro hf
      all_goals
        first
          | exact trailRun_append_nonNl_ne _ _ hw4 (by decide)
          | exact trailRun_append_nonNl_ne _ _ hw (List.cons_ne_nil _ _)
          | exact h2 hf

/-- The indentation unit is never empty. -/
theorem indentText_ne_nil (cfg : Config) : indentText cfg ≠ [] := by
  unfold indentText
  rcases h : cfg.indentation <;> simp only [h] <;> intro hx <;> cases hx

/-- One or more indentation units are never empty. -/
theorem indentRep_succ_ne_nil (cfg : Config) (k : Nat) :
    indentRep cfg (k + 1) ≠ [] := by
  unfold indentRep
  rw [List.replicate_succ, List.flatten_cons]
  intro h
  rcases List.append_eq_nil.mp h with ⟨h1, _⟩
  exact indentText_ne_nil cfg h1

/-- Dropping trailing whitespace yields a good block. -/
theorem goodOut_dtw (n : Nat) (l : List Char) (h : maxNewlineRun l ≤ n + 1) :
    GoodOut n (dropTrailingWhile isWsAll l) :=
  ⟨le_trans (maxRun_dropTrailingWhile _ _) h, trailRun_dropTrailingWhile_ws l⟩

/-- Appending a non-empty non-newline block keeps a block good. -/
theorem goodOut_append (n : Nat) (l w : List Char) (h : GoodOut n l)
    (hw : ∀ c ∈ w, c ≠ '\n') (hne : w ≠ []) : GoodOut n (l ++ w) :=
  ⟨by rw [maxRun_append_nonNl _ _ hw]; exact h.1,
    trailRun_append_nonNl_ne _ _ hw hne⟩

/-- A line ending plus non-newline material after a good block: still good
(the run created by the line break has length 1). -/
theorem goodOut_nl_append (n : Nat) (l w : List Char) (h : GoodOut n l)
    (hw : ∀ c ∈ w, c ≠ '\n') (hne : w ≠ []) :
    GoodOut n ((l ++ LINE_ENDING) ++ w) := by
  constructor
  · rw [maxRun_append_nonNl _ _ hw, maxRun_append_nl, h.2]
    exact max_le h.1 (Nat.succ_le_succ (Nat.zero_le _))
  · exact trailRun_append_nonNl_ne _ _ hw hne

/-- A line ending, any non-newline material, and a final non-empty
non-newline block after a good block: still good. -/
theorem goodOut_nl_mid_append (n : Nat) (l w₁ w₂ : List Char) (h : GoodOut n l)
    (hw₁ : ∀ c ∈ w₁, c ≠ '\n') (hw₂ : ∀ c ∈ w₂, c ≠ '\n') (hne₂ : w₂ ≠ []) :
    GoodOut n (((l ++ LINE_ENDING) ++ w₁) ++ w₂) := by
  constructor
  · rw [maxRun_append_nonNl _ _ hw₂, maxRun_append_nonNl _ _ hw₁,
      maxRun_append_nl, h.2]
    exact max_le h.1 (Nat.succ_le_succ (Nat.zero_le _))
  · exact trailRun_append_nonNl_ne _ _ hw₂ hne₂

/-- The previous line read back from the output contains no newline. -/
theorem lineBefore_no_nl (out : List Char) :
    ∀ c ∈ ((out.reverse.takeWhile (fun c => c ≠ '\n')).reverse : List Char),
      c ≠ '\n' := by
  intro c hc
  rw [List.mem_reverse] at hc
  have := List.mem_takeWhile_imp hc
  rw [decide_eq_true_eq] at this
  exact this

/-- Appending a non-empty non-newline block to a bound-respecting text gives
a good block (no trailing-run hypothesis needed: the appended block ends it). -/
theorem goodOut_of_append_nonNl (n : Nat) (l w : List Char)
    (h : maxNewlineRun l ≤ n + 1) (hw : ∀ c ∈ w, c ≠ '\n') (hne : w ≠ []) :
    GoodOut n (l ++ w) :=
  ⟨by rw [maxRun_append_nonNl _ _ hw]; exact h,
    trailRun_append_nonNl_ne _ _ hw hne⟩

/-- Placing the brace after a good previous line (the `After` arm) keeps the
output good: the scan only pops and appends non-newline characters, and the
comment path ends in the brace after a single line break. -/
theorem braceAfterOut2_good (cfg : Config) (n nest wsCount : Nat)
    (out1 : List Char) (h : GoodOut n out1) :
    GoodOut n (braceAfterOut2 cfg nest wsCount out1) := by
  have hsc := braceScan_out
    ((out1.reverse.takeWhile (fun c => c ≠ '\n')).reverse.length)
    ((out1.reverse.takeWhile (fun c => c ≠ '\n')).reverse)
    (lineBefore_no_nl out1)
    { out := out1, ctr := wsCount, skipped := 0, lastEmpty := 0,
      copy := false, found := false }
    (n + 1) h.1 (by intro hx; exact Bool.noConfusion hx)
  unfold braceAfterOut2
  dsimp only
  split
  · split
    · exact goodOut_of_append_nonNl n _ _ hsc.1 (by decide) (by decide)
    · rename_i hf
      simp only [Bool.not_eq_true', Bool.not_eq_false] at hf
      exact ⟨hsc.1, hsc.2 hf⟩
  · exact goodOut_nl_mid_append n _ _ _ h (indentRep_no_nl cfg nest)
      (by decide) (by decide)

/-- Placing the brace on a new line (the `Before` arm) keeps the output good:
everything appended after the single line break is newline-free. -/
theorem braceBeforeOut2_good (cfg : Config) (n nest : Nat) (plb : Bool)
    (out0 : List Char) (h : GoodOut n out0) :
    GoodOut n (braceBeforeOut2 cfg nest plb out0) := by
  have hbs : ∀ c ∈ ([ '\\'] : List Char), c ≠ '\n' := by decide
  have hlb : ∀ c ∈ ([lbrace] : List Char), c ≠ '\n' := by decide
  unfold braceBeforeOut2
  dsimp only
  repeat' split
  all_goals try dsimp only
  all_goals
    first
      | exact goodOut_append n _ _ (goodOut_nl_mid_append n _ _ _
          (goodOut_append n _ _ h hbs (by decide)) (indentRep_no_nl cfg nest)
          hlb (by decide)) hbs (by decide)
      | exact goodOut_append n _ _ (goodOut_nl_mid_append n _ _ _ h
          (indentRep_no_nl cfg nest) hlb (by decide)) hbs (by decide)
      | exact goodOut_nl_mid_append n _ _ _
          (goodOut_append n _ _ h hbs (by decide)) (indentRep_no_nl cfg nest)
          hlb (by decide)
      | exact goodOut_nl_mid_append n _ _ _ h (indentRep_no_nl cfg nest)
          hlb (by decide)

/-- The backslash-removal step keeps the output good. -/
theorem braceOut1_good (n : Nat) (plb tsb : Bool) (out0 : List Char)
    (h : GoodOut n out0) (hm : GoodOut n (braceMacroRewind out0)) :
    GoodOut n (braceOut1 plb tsb out0) := by
  unfold braceOut1
  split
  · exact hm
  · exact h

/-- The whole `{` branch produces a good output from any output within the
blank-line bound. -/
theorem braceOpenStep_good (cfg : Config) (n : Nat) (st : FmtSt)
    (h1 : maxNewlineRun st.out ≤ n + 1) :
    GoodOut n (braceOpenStep cfg st).out := by
  have h0 : GoodOut n (dropTrailingWhile isWsAll st.out) :=
    goodOut_dtw n st.out h1
  have h0' : GoodOut n (braceMacroRewind (dropTrailingWhile isWsAll st.out)) := by
    unfold braceMacroRewind
    exact goodOut_dtw n _ (le_trans (maxRun_popN _ _)
      (le_trans (maxRun_dropTrailingWhile _ _) h1))
  have hsel : ∀ b : Bool, GoodOut n
      (braceOut1 st.prevLineBackslash b (dropTrailingWhile isWsAll st.out)) :=
    fun b => braceOut1_good n st.prevLineBackslash b _ h0 h0'
  unfold braceOpenStep
  dsimp only
  rcases hb : cfg.newLineAroundBraces with _ | _
  all_goals dsimp only
  · -- Before
    exact goodOut_nl_append n _ _ (braceBeforeOut2_good cfg n st.nesting _ _ h0)
      (indentRep_no_nl cfg _) (indentRep_succ_ne_nil cfg _)
  · -- After
    split
    all_goals try dsimp only
    · exact goodOut_nl_append n _ _
        (braceAfterOut2_good cfg n st.nesting _ _ (hsel _))
        (indentRep_no_nl cfg _) (indentRep_succ_ne_nil cfg _)
    · exact braceAfterOut2_good cfg n st.nesting _ _ (hsel _)

/-- The `}` branch produces a good output. -/
theorem braceCloseStep_good (cfg : Config) (n : Nat) (st : FmtSt)
    (h1 : maxNewlineRun st.out ≤ n + 1) :
    GoodOut n (braceCloseStep cfg st).out := by
  have h0 : GoodOut n (dropTrailingWhile isWsAll st.out) :=
    goodOut_dtw n st.out h1
  have hrb : ∀ c ∈ ([rbrace] : List Char), c ≠ '\n' := by decide
  unfold braceCloseStep
  dsimp only
  split
  · exact goodOut_nl_mid_append n _ _ _ h0 (indentRep_no_nl cfg _) hrb
      (by decide)
  · exact goodOut_append n _ _ (goodOut_append n _ _ h0 (by decide) (by decide))
      hrb (by decide)

/-- The `[` / `(` branch produces a good output. -/
theorem bracketOpenStep_good (cfg : Config) (n : Nat) (st : FmtSt) (ch : Char)
    (hch : ch ≠ '\n') (h1 : maxNewlineRun st.out ≤ n + 1) :
    GoodOut n (bracketOpenStep cfg st ch).out := by
  have hw : ∀ c ∈ [ch], c ≠ '\n' := by
    intro c hc
    rw [List.mem_singleton] at hc
    rw [hc]
    exact hch
  have base : GoodOut n (st.out ++ [ch]) :=
    goodOut_of_append_nonNl n _ _ h1 hw (List.cons_ne_nil _ _)
  unfold bracketOpenStep
  dsimp only
  split
  · exact goodOut_append n _ _ base (by decide) (by decide)
  · rw [List.append_nil]
    exact base

/-- The `]` / `)` branch produces a good output. -/
theorem bracketCloseStep_good (cfg : Config) (n : Nat) (st : FmtSt) (ch : Char)
    (hch : ch ≠ '\n') (h1 : maxNewlineRun st.out ≤ n + 1) :
    GoodOut n (bracketCloseStep cfg st ch).out := by
  have hw : ∀ c ∈ [ch], c ≠ '\n' := by
    intro c hc
    rw [List.mem_singleton] at hc
    rw [hc]
    exact hch
  have h0 : GoodOut n (dropTrailingWhile isWsAll st.out) :=
    goodOut_dtw n st.out h1
  unfold bracketCloseStep
  dsimp only
  split
  · exact goodOut_append n _ _ (goodOut_append n _ _ h0 (by decide) (by decide))
      hw (List.cons_ne_nil _ _)
  · exact goodOut_append n _ _ h0 hw (List.cons_ne_nil _ _)

/-- The fallthrough branch produces a good output. -/
theorem defaultCharStep_good (n : Nat) (st : FmtSt) (ch : Char)
    (hch : ch ≠ '\n') (h1 : maxNewlineRun st.out ≤ n + 1) :
    GoodOut n (defaultCharStep st ch).out := by
  have hw : ∀ c ∈ [ch], c ≠ '\n' := by
    intro c hc
    rw [List.mem_singleton] at hc
    rw [hc]
    exact hch
  unfold defaultCharStep
  dsimp only
  split
  · exact goodOut_of_append_nonNl n _ _
      (le_trans (maxRun_dropTrailingWhile _ _) h1) hw (List.cons_ne_nil _ _)
  · exact goodOut_of_append_nonNl n _ _ h1 hw (List.cons_ne_nil _ _)

/-- The whole dispatch on a non-newline character produces a good output. -/
theorem dispatchStep_good (cfg : Config) (n : Nat) (st : FmtSt) (ch : Char)
    (hch : ch ≠ '\n') (h1 : maxNewlineRun st.out ≤ n + 1) :
    GoodOut n (dispatchStep cfg st ch).out := by
  unfold dispatchStep
  dsimp only
  repeat' split
  all_goals
    first
      | exact braceOpenStep_good cfg n _ h1
      | exact braceCloseStep_good cfg n _ h1
      | exact bracketOpenStep_good cfg n _ ch hch h1
      | exact bracketCloseStep_good cfg n _ ch hch h1
      | exact defaultCharStep_good n _ ch hch h1

/-- The ignore block only `continue`s on a space or tab. -/
theorem ignoreStep_stop_ch (st : FmtSt) (ch : Char) (st' : FmtSt)
    (h : ignoreStep st ch = .stop st') : ch = ' ' ∨ ch = '\t' := by
  unfold ignoreStep at h
  split at h
  · split at h
    · cases h
    · rename_i hc
      rw [Bool.and_eq_true, decide_eq_true_eq, decide_eq_true_eq] at hc
      by_cases hs : ch = ' '
      · exact Or.inl hs
      · refine Or.inr ?_
        by_contra ht
        exact hc ⟨hs, ht⟩
  · cases h

/-- A `go` of the line-start block: either the state is untouched, or the
character is neither a space nor a tab. -/
theorem lineStartStep_go_cases (cfg : Config) (st : FmtSt) (ch : Char)
    (st' : FmtSt) (h : lineStartStep cfg st ch = .go st') :
    st' = st ∨ (ch ≠ ' ' ∧ ch ≠ '\t') := by
  unfold lineStartStep at h
  split at h
  · split at h
    · rename_i hc
      rw [Bool.and_eq_true, decide_eq_true_eq, decide_eq_true_eq] at hc
      exact Or.inr hc
    · cases h
  · injection h with h
    exact Or.inl h.symm

/-- One full loop-body step preserves the blank-line invariant. -/
theorem step_inv (cfg : Config) (st : FmtSt) (ch : Char)
    (h : FmtInv cfg.maxEmptyLines st) :
    FmtInv cfg.maxEmptyLines (step cfg st ch) := by
  unfold step
  by_cases hr : ch = '\r'
  · rw [if_pos hr]
    exact h
  rw [if_neg hr]
  by_cases hn : ch = '\n'
  · rw [if_pos hn]
    exact newlineCharStep_inv cfg st h
  rw [if_neg hn]
  have hw : ∀ c ∈ [ch], c ≠ '\n' := by
    intro c hc
    rw [List.mem_singleton] at hc
    rw [hc]
    exact hn
  rcases hls : lineStartStep cfg st ch with st1 | st1
  all_goals dsimp only
  · -- `continue`: output and counter untouched.
    obtain ⟨e1, e2⟩ := lineStartStep_stop_eq cfg st ch st1 hls
    unfold FmtInv
    rw [e1, e2]
    exact h
  · have hmax1 : maxNewlineRun st1.out ≤ maxNewlineRun st.out :=
      lineStartStep_go_maxRun cfg st ch st1 hls
    rcases hig : ignoreStep st1 ch with st2 | st2
    all_goals dsimp only
    · -- `continue` of the ignore block: only reachable when the whole state
      -- is unchanged (it needs a space/tab, which the line-start block
      -- already consumed otherwise).
      have he : st2 = st1 := ignoreStep_stop_eq st1 ch st2 hig
      rcases lineStartStep_go_cases cfg st ch st1 hls with heq | hchs
      · rw [he, heq]
        exact h
      · rcases ignoreStep_stop_ch st1 ch st2 hig with hs | hs
        · exact absurd hs hchs.1
        · exact absurd hs hchs.2
    · obtain ⟨g1, g2⟩ := ignoreStep_go_eq st1 ch st2 hig
      have hmax2 : maxNewlineRun st2.out ≤ cfg.maxEmptyLines + 1 := by
        rw [g1]
        exact le_trans hmax1 h.1
      obtain ⟨d1, _⟩ := detectStep_maxRun cfg st2 ch
      have hmax4 : maxNewlineRun (updateLast3 (detectStep cfg st2 ch) ch).out
          ≤ cfg.maxEmptyLines + 1 := le_trans d1 hmax2
      split
      · -- copy into a comment
        obtain ⟨m1, m2, _⟩ :=
          commentCopyStep_out (updateLast3 (detectStep cfg st2 ch) ch) ch hn
        unfold FmtInv
        rw [m1, m2]
        exact ⟨hmax4, Nat.zero_le _⟩
      · split
        · -- NOFORMAT verbatim copy
          unfold FmtInv
          constructor
          · show maxNewlineRun
              ((updateLast3 (detectStep cfg st2 ch) ch).out ++ [ch]) ≤ _
            rw [maxRun_append_nonNl _ _ hw]
            exact hmax4
          · show trailNewlineRun
              ((updateLast3 (detectStep cfg st2 ch) ch).out ++ [ch]) ≤ _
            rw [trailRun_append_nonNl_ne _ _ hw (List.cons_ne_nil _ _)]
            exact Nat.zero_le _
        · -- dispatch on the character
          have hg := dispatchStep_good cfg cfg.maxEmptyLines
            (updateLast3 (detectStep cfg st2 ch) ch) ch hn hmax4
          unfold FmtInv
          rw [hg.2]
          exact ⟨hg.1, Nat.zero_le _⟩

/-- The whole scan preserves the blank-line invariant. -/
theorem foldl_step_inv (cfg : Config) (content : List Char) :
    ∀ st : FmtSt, FmtInv cfg.maxEmptyLines st →
      FmtInv cfg.maxEmptyLines (content.foldl (step cfg) st) := by
  induction content with
  | nil =>
    intro st h
    exact h
  | cons c rest ih =>
    intro st h
    rw [List.foldl_cons]
    exact ih _ (step_inv cfg st c h)

/-- C2: blank-line bound as an output invariant — for every input text and
every configuration with `max_empty_lines = n`, a text the layout formatter
`apply_simple_rules` returns successfully never contains more than `n + 1`
consecutive line breaks (its longest run of `\n` characters is at most
`n + 1`). -/
theorem c2_blank_line_bound (cfg : Config) (content out : List Char)
    (h : applySimpleRules cfg content = .ok out) :
    maxNewlineRun out ≤ cfg.maxEmptyLines + 1 := by
  have hinit : FmtInv cfg.maxEmptyLines initFmtSt := by
    unfold FmtInv
    exact ⟨Nat.zero_le _, Nat.le_refl 0⟩
  have hinv := foldl_step_inv cfg content initFmtSt hinit
  unfold applySimpleRules at h
  dsimp only at h
  split at h
  · cases h
  · injection h with h
    rw [← h]
    exact hinv.1

/-- Witness for C2 on a concrete run: with the default configuration
(`max_empty_lines = 1`) the input `a\n\n\n\nb` is formatted to `a\n\nb`,
whose longest newline run respects the bound. -/
theorem c2_blank_line_bound_witness :
    maxNewlineRun (("a\n\nb").data) ≤ defaultConfig.maxEmptyLines + 1 :=
  c2_blank_line_bound defaultConfig (("a\n\n\n\nb").data) (("a\n\nb").data)
    (by rfl)
